import Mathlib

/-!
Verification of `chatgpt-to-obsidian-markdown` (src/index.js, with the
divergent duplicate implementation embedded in src/cli.js).

The JavaScript source is shallowly embedded: strings are Lean `String`
(operations are defined on their underlying `List Char`), JavaScript
`undefined` fields are `Option`, runtime exceptions are `Except JsError`,
and the regular-expression operations of the source are implemented as
explicit scanners with the exact semantics of the regexes they embed.
-/

set_option maxHeartbeats 1000000

namespace ChatGPTMd

/-- The set matched by JavaScript's regex class `\s` (also the set trimmed by
`String.prototype.trim`): ASCII whitespace, NBSP, the Unicode space
separators, line/paragraph separators and the BOM. -/
def isJsWs (c : Char) : Bool :=
  c = ' ' || c = '\t' || c = '\n' || c = '\r' || c = '\x0b' || c = '\x0c' ||
  c = '\u00A0' || c = '\u1680' ||
  (0x2000 ≤ c.toNat && c.toNat ≤ 0x200a) ||
  c = '\u2028' || c = '\u2029' || c = '\u202F' || c = '\u205F' ||
  c = '\u3000' || c = '\uFEFF'

/-- JavaScript line terminators (the characters *not* matched by `.` in a
regex without the `s` flag). -/
def isJsLineTerm (c : Char) : Bool :=
  c = '\n' || c = '\r' || c = '\u2028' || c = '\u2029'

/-- The private-use-area sentinel class (U+E000 to U+F8FF) of the citation
placeholder regex in `replaceCitationPlaceholders` (src/index.js:254). -/
def isPUA (c : Char) : Bool :=
  0xE000 ≤ c.toNat && c.toNat ≤ 0xF8FF

/-- `List Char` back to `String`. -/
def chars (s : String) : List Char := s.data

def str (l : List Char) : String := ⟨l⟩

@[simp] theorem chars_str (l : List Char) : chars (str l) = l := rfl

@[simp] theorem str_chars (s : String) : str (chars s) = s := rfl

/-- Whether `pat` occurs at the very start of `l`. -/
def startsWithL : List Char → List Char → Bool
  | [], _ => true
  | _ :: _, [] => false
  | p :: ps, c :: cs => p = c && startsWithL ps cs

theorem startsWithL_iff (pat l : List Char) :
    startsWithL pat l = true ↔ ∃ rest, l = pat ++ rest := by
  induction pat generalizing l with
  | nil => simp [startsWithL]
  | cons p ps ih =>
    cases l with
    | nil => simp [startsWithL]
    | cons c cs =>
      simp only [startsWithL, Bool.and_eq_true, decide_eq_true_eq, ih, List.cons_append,
        List.cons.injEq]
      constructor
      · rintro ⟨rfl, rest, rfl⟩; exact ⟨rest, rfl, rfl⟩
      · rintro ⟨rest, rfl, rfl⟩; exact ⟨rfl, rest, rfl⟩

/-- Whether `pat` occurs as a contiguous substring of `l`. -/
def occursIn (pat : List Char) : List Char → Bool
  | [] => startsWithL pat []
  | c :: cs => startsWithL pat (c :: cs) || occursIn pat cs

/-- JavaScript `String.prototype.replace(pat, repl)` with a *string* pattern:
replaces only the first occurrence of `pat`, leaves the text unchanged when
`pat` does not occur. -/
def replaceFirstL (pat repl : List Char) : List Char → List Char
  | [] => []
  | c :: cs =>
    if startsWithL pat (c :: cs) ∧ pat ≠ [] then
      repl ++ (c :: cs).drop pat.length
    else c :: replaceFirstL pat repl cs

theorem replaceFirstL_of_not_occurs (pat repl : List Char) (l : List Char)
    (h : occursIn pat l = false) : replaceFirstL pat repl l = l := by
  induction l with
  | nil => rfl
  | cons c cs ih =>
    simp only [occursIn, Bool.or_eq_false_iff] at h
    simp only [replaceFirstL, h.1, ih h.2]
    simp

/-- src/index.js:9 `sanitizeFileName`, first `.replace`: each Windows-reserved
path character and each newline becomes a space. -/
def sanitizeReplaceInvalid (c : Char) : Char :=
  if c = '<' || c = '>' || c = ':' || c = '"' || c = '/' || c = '\\' ||
     c = '|' || c = '?' || c = '*' || c = '\n' then ' ' else c

/-- The character class `[<>:"\/\\|?*\n]` of src/index.js:12. -/
def isInvalidFileChar (c : Char) : Bool :=
  c = '<' || c = '>' || c = ':' || c = '"' || c = '/' || c = '\\' ||
  c = '|' || c = '?' || c = '*' || c = '\n'

/-- src/index.js:14 `.replace(/\s+/g, " ")`: each maximal run of whitespace
is replaced by a single space.  The boolean argument records whether the
previous character belonged to a run already replaced. -/
def collapseWsAux : Bool → List Char → List Char
  | _, [] => []
  | inRun, c :: cs =>
    if isJsWs c then
      if inRun then collapseWsAux true cs else ' ' :: collapseWsAux true cs
    else c :: collapseWsAux false cs

def collapseWs (l : List Char) : List Char := collapseWsAux false l

/-- JavaScript `String.prototype.trim`. -/
def jsTrimL (l : List Char) : List Char :=
  ((l.dropWhile isJsWs).reverse.dropWhile isJsWs).reverse

def jsTrim (s : String) : String := str (jsTrimL (chars s))

/-- src/index.js:9-16 `sanitizeFileName`. -/
def sanitizeFileName (title : String) : String :=
  str (jsTrimL (collapseWs ((chars title).map sanitizeReplaceInvalid)))

/-- src/index.js:326: the output file title falls back to the conversation id
when the sanitized title is empty (JavaScript `||` on a falsy string). -/
def chosenFileTitle (title conversationId : String) : String :=
  if sanitizeFileName title = "" then conversationId else sanitizeFileName title

/-- src/index.js:74: the fenced-code language tag,
`content.language.replace("unknown", "")`. -/
def codeLanguageTag (language : String) : String :=
  str (replaceFirstL (chars "unknown") [] (chars language))

/-! ## Data model

The conversation-archive shapes read by the source.  A field that may be
absent (`undefined`) in the JSON export is an `Option`; JavaScript template
interpolation renders an absent value as the text `undefined`. -/

/-- A thrown JavaScript exception, reduced to its `message` property (the
only part the source reads and mutates). -/
structure JsError where
  message : String
deriving DecidableEq, Repr

/-- An element of `content.parts`: either a plain string or a structured
part (an `image_asset_pointer`, or some other tagged object). -/
inductive Part where
  | strPart (s : String)
  | image (width height : Int) (prompt : Option String)
  | otherPart (content_type : String)
deriving DecidableEq, Repr

/-- How `Array.prototype.join` stringifies an element. -/
def partToString : Part → String
  | .strPart s => s
  | .image _ _ _ => "[object Object]"
  | .otherPart _ => "[object Object]"

structure Thought where
  summary : String
  content : String
deriving DecidableEq, Repr

/-- A message `content` object.  `content_type` selects the switch branch of
`nodeToMarkdown` (src/index.js:69); the remaining fields are the properties
each branch reads, absent unless the export supplies them. -/
structure Content where
  content_type : String
  parts : Option (List Part) := none
  text : Option String := none
  language : Option String := none
  summary : Option String := none
  result : Option String := none
  title : Option String := none
  url : Option String := none
  name : Option String := none
  thoughts : Option (List Thought) := none
  content : Option String := none
deriving DecidableEq, Repr

structure Author where
  role : String
  name : Option String := none
deriving DecidableEq, Repr

structure Citation where
  ref_id : Option String := none
  source_id : Option String := none
  id : Option String := none
  url : Option String := none
  title : Option String := none
  name : Option String := none
  detail : Option String := none
deriving DecidableEq, Repr

structure SearchEntry where
  url : Option String := none
  title : Option String := none
deriving DecidableEq, Repr

structure SearchGroup where
  entries : Option (List SearchEntry) := none
deriving DecidableEq, Repr

structure Metadata where
  is_visually_hidden_from_conversation : Bool := false
  reasoning_status : Option String := none
  model_slug : Option String := none
  citations : Option (List Citation) := none
  search_result_groups : Option (List SearchGroup) := none
deriving DecidableEq, Repr

structure Message where
  author : Author
  content : Option Content := none
  metadata : Option Metadata := none
deriving DecidableEq, Repr

/-- One value of `conversation.mapping`. -/
structure Node where
  message : Option Message := none
  children : Option (List String) := none
deriving DecidableEq, Repr

structure Conversation where
  title : String := ""
  conversation_id : String := ""
  create_time : Int := 0
  update_time : Int := 0
  mapping : List (String × Node) := []
deriving DecidableEq, Repr

/-- JavaScript truthiness of a possibly-absent string (absent and `""` are
falsy). -/
def truthyStr : Option String → Bool
  | none => false
  | some s => s ≠ ""

/-- Template interpolation of a possibly-absent string (`undefined` prints
as the word `undefined`). -/
def jsIpol : Option String → String
  | none => "undefined"
  | some s => s

/-! ## Line-level helpers (src/index.js:45-62) -/

/-- JavaScript `"s".split("\n")` (splitting an empty string yields `[""]`). -/
def splitLinesL : List Char → List (List Char)
  | [] => [[]]
  | c :: cs =>
    if c = '\n' then [] :: splitLinesL cs
    else
      match splitLinesL cs with
      | [] => [[c]]
      | h :: t => (c :: h) :: t

def splitLines (s : String) : List String := (splitLinesL (chars s)).map str

/-- src/index.js:45 `indent`: 4-space indent of each non-blank line, blank
lines dropped, the pieces joined with no separator. -/
def indent (s : String) : String :=
  String.join ((splitLines s).map fun v =>
    if jsTrim v ≠ "" then "    " ++ v ++ "\n" else "")

/-- src/index.js:57 `blockquote`: prefix each non-empty line with `"> "` and
each empty line with `">"`, joined by newlines. -/
def blockquote (s : String) : String :=
  String.intercalate "\n" ((splitLines s).map fun v =>
    if v ≠ "" then "> " ++ v else ">")

/-! ## The content-kind switch of `nodeToMarkdown` (src/index.js:69-113)

Reading a property of `undefined` throws; concatenating `undefined` into a
template produces the text `undefined`; `String(object)` produces
`[object Object]`. -/

def renderBodySwitch (content : Content) : Except JsError String :=
  match content.content_type with
  | "text" =>
    match content.parts with
    | none => .error ⟨"Cannot read properties of undefined (reading 'join')"⟩
    | some ps => .ok (String.intercalate "\n" (ps.map partToString))
  | "code" =>
    match content.language with
    | none => .error ⟨"Cannot read properties of undefined (reading 'replace')"⟩
    | some lang => .ok ("```" ++ codeLanguageTag lang ++ "\n" ++ jsIpol content.text ++ "\n```")
  | "execution_output" => .ok ("```\n" ++ jsIpol content.text ++ "\n```")
  | "multimodal_text" =>
    match content.parts with
    | none => .error ⟨"Cannot read properties of undefined (reading 'map')"⟩
    | some ps => .ok (String.join (ps.map fun p =>
        match p with
        | .strPart s => s ++ "\n\n"
        | .image w h prompt =>
          "Image (" ++ toString w ++ "x" ++ toString h ++ "): " ++ (prompt.getD "") ++ "\n\n"
        | .otherPart ct => ct ++ "\n\n"))
  | "tether_browsing_display" =>
    .ok ("```\n" ++ (if truthyStr content.summary then jsIpol content.summary ++ "\n" else "") ++
      jsIpol content.result ++ "\n```")
  | "tether_quote" =>
    .ok (blockquote ("[" ++
      jsIpol (if truthyStr content.title then content.title else content.url) ++ "](" ++
      jsIpol content.url ++ ")\n\n" ++ jsIpol content.text))
  | "system_error" => .ok (jsIpol content.name ++ "\n\n" ++ jsIpol content.text ++ "\n\n")
  | "user_editable_context" => .ok ""
  | "thoughts" =>
    match content.thoughts with
    | none => .error ⟨"Cannot read properties of undefined (reading 'map')"⟩
    | some ts => .ok (String.intercalate "\n" (ts.map fun t =>
        "##### " ++ t.summary ++ "\n\n" ++ t.content ++ "\n"))
  | "reasoning_recap" =>
    match content.content with
    | none => .error ⟨"Cannot read properties of undefined (reading 'split')"⟩
    | some s => .ok (blockquote s)
  | "sonic_webpage" =>
    .ok ("```\n" ++ jsIpol content.title ++ " (" ++ jsIpol content.url ++ ")\n\n" ++
      jsIpol content.text ++ "\n```")
  | _ => .ok "[object Object]"

/-! ## Citation and search-result resolution (src/index.js:197-270) -/

/-- src/index.js:197 `safeTitle`: the trimmed title when non-blank, else the
last `/`-separated segment of the url (`url.split("/").pop()`). -/
def safeTitle (url : String) (title : Option String) : String :=
  let t := jsTrim (title.getD "")
  if t ≠ "" then t
  else ((chars url).splitOn '/').getLastD [] |> str

/-- A JavaScript plain-object store, modelled as an insertion-ordered
association list where assigning an existing key overwrites in place. -/
def objSet (m : List (String × String)) (k v : String) : List (String × String) :=
  match m with
  | [] => [(k, v)]
  | (k0, v0) :: rest => if k0 = k then (k0, v) :: rest else (k0, v0) :: objSet rest k v

/-- src/index.js:234: `citation.ref_id || citation.source_id || citation.id`
(JavaScript `||` chain over possibly-absent strings). -/
def citationKey (c : Citation) : Option String :=
  if truthyStr c.ref_id then c.ref_id
  else if truthyStr c.source_id then c.source_id
  else c.id

/-- src/index.js:236 `if (key && citation.url)`. -/
def citationEligible (c : Citation) : Bool :=
  truthyStr (citationKey c) && truthyStr c.url

/-- src/index.js:237: the stored link `[safeTitle(url, title)](url)`. -/
def citationLink (c : Citation) : String :=
  "[" ++ safeTitle (c.url.getD "") c.title ++ "](" ++ (c.url.getD "") ++ ")"

/-- src/index.js:229-243 `buildCitationMap`. -/
def buildCitationMap (metadata : Metadata) : List (String × String) :=
  match metadata.citations with
  | none => []
  | some cs =>
    cs.foldl (fun map c =>
      if citationEligible c then
        objSet map ((citationKey c).getD "") (citationLink c)
      else map) []

/-- The lazy group `(.*?)` followed by the closing sentinel of the citation
placeholder regex: consume characters up to the first private-use-area
character; fail on a line terminator (`.` without the `s` flag) or at end of
input.  Returns the captured identifier and the text after the closer. -/
def findIdEnd : List Char → Option (List Char × List Char)
  | [] => none
  | c :: cs =>
    if isPUA c then some ([], cs)
    else if isJsLineTerm c then none
    else
      match findIdEnd cs with
      | some (id, r) => some (c :: id, r)
      | none => none

theorem findIdEnd_length {l id r : List Char} (h : findIdEnd l = some (id, r)) :
    r.length < l.length := by
  induction l generalizing id r with
  | nil => simp [findIdEnd] at h
  | cons c cs ih =>
    simp only [findIdEnd] at h
    split at h
    · simp only [Option.some.injEq, Prod.mk.injEq] at h
      obtain ⟨-, h2⟩ := h
      subst h2
      simp
    · split at h
      · exact Option.noConfusion h
      · split at h
        next id0 r0 heq =>
          simp only [Option.some.injEq, Prod.mk.injEq] at h
          obtain ⟨-, h2⟩ := h
          subst h2
          have := ih heq
          simp only [List.length_cons]
          omega
        next => exact Option.noConfusion h

/-- src/index.js:251-257 `replaceCitationPlaceholders`: global replacement of
`/[-]cite[-](.*?)[-]/g`, each match
becoming `citationMap[id] || ""`. -/
def citeTokenAt (cs : List Char) : Option (List Char × List Char) :=
  match cs with
  | 'c' :: 'i' :: 't' :: 'e' :: s2 :: rest2 =>
    if isPUA s2 then findIdEnd rest2 else none
  | _ => none

theorem citeTokenAt_length {cs id r : List Char} (h : citeTokenAt cs = some (id, r)) :
    r.length < cs.length := by
  unfold citeTokenAt at h
  split at h
  · split at h
    · have := findIdEnd_length h
      simp only [List.length_cons]
      omega
    · exact Option.noConfusion h
  · exact Option.noConfusion h

def replaceCiteL (map : List (String × String)) (l : List Char) : List Char :=
  match l with
  | [] => []
  | c :: cs =>
    if isPUA c then
      match h : citeTokenAt cs with
      | some (id, r) =>
        have : r.length < (c :: cs).length := by
          have := citeTokenAt_length h
          simp only [List.length_cons]
          omega
        chars ((List.lookup (str id) map).getD "") ++ replaceCiteL map r
      | none => c :: replaceCiteL map cs
    else c :: replaceCiteL map cs
termination_by l.length

def replaceCitationPlaceholders (text : String) (map : List (String × String)) : String :=
  str (replaceCiteL map (chars text))

/-- src/index.js:264-270 `extractCitations` (the index.js variant: blockquoted
name/url plus detail per citation; note that an empty citations array still
yields the text `"\n"`). -/
def extractCitations (metadata : Metadata) : String :=
  match metadata.citations with
  | none => ""
  | some cs =>
    "\n" ++ String.intercalate "\n" (cs.map fun c =>
      "> [" ++ jsIpol c.name ++ "](" ++ jsIpol c.url ++ ")\n\n> " ++ jsIpol c.detail ++ "\n")

/-- src/cli.js variant of `extractCitations`: a flat link-per-line list. -/
def extractCitationsCli (metadata : Metadata) : String :=
  match metadata.citations with
  | none => ""
  | some [] => ""
  | some cs =>
    String.intercalate "\n" (cs.map fun c =>
      "[" ++ safeTitle (jsIpol c.url) c.title ++ "](" ++ jsIpol c.url ++ ")") ++ "\n\n"

/-- src/index.js:207-222 `extractSearchResults`. -/
def extractSearchResults (metadata : Metadata) : String :=
  match metadata.search_result_groups with
  | none => ""
  | some groups =>
    let links := groups.foldl (fun links g =>
      match g.entries with
      | none => links
      | some es => links ++ (es.filter fun e => truthyStr e.url).map fun e =>
          "[" ++ safeTitle (e.url.getD "") e.title ++ "](" ++ e.url.getD "" ++ ")") []
    if links ≠ [] then String.intercalate "\n" links ++ "\n\n" else ""

/-! ## Bare-URL wrapping (src/index.js:32-34)

`text.replace(/https?:\/\/\S+/g, url => "[" + url + "](" + url + ")")`: a
match is the scheme followed by the maximal non-empty run of non-whitespace
characters. -/

def tryUrl (l : List Char) : Option (List Char × List Char) :=
  if startsWithL (chars "https://") l then
    let tail := l.drop 8
    let run := tail.takeWhile (fun c => !isJsWs c)
    if run = [] then none else some (chars "https://" ++ run, tail.drop run.length)
  else if startsWithL (chars "http://") l then
    let tail := l.drop 7
    let run := tail.takeWhile (fun c => !isJsWs c)
    if run = [] then none else some (chars "http://" ++ run, tail.drop run.length)
  else none

theorem tryUrl_some_length {l url after : List Char} (h : tryUrl l = some (url, after)) :
    after.length < l.length := by
  simp only [tryUrl] at h
  split at h
  next hs =>
    obtain ⟨rest, rfl⟩ := (startsWithL_iff _ _).1 hs
    have hdrop : (chars "https://" ++ rest).drop 8 = rest := rfl
    rw [hdrop] at h
    split at h
    · exact Option.noConfusion h
    · simp only [Option.some.injEq, Prod.mk.injEq] at h
      obtain ⟨-, h2⟩ := h
      subst h2
      have hlen : (chars "https://" ++ rest).length = 8 + rest.length := by
        simp [chars]
        omega
      rw [hlen]
      have : (rest.drop ((rest.takeWhile fun c => !isJsWs c)).length).length ≤ rest.length := by
        simp [List.length_drop]
      omega
  next =>
    split at h
    next hs =>
      obtain ⟨rest, rfl⟩ := (startsWithL_iff _ _).1 hs
      have hdrop : (chars "http://" ++ rest).drop 7 = rest := rfl
      rw [hdrop] at h
      split at h
      · exact Option.noConfusion h
      · simp only [Option.some.injEq, Prod.mk.injEq] at h
        obtain ⟨-, h2⟩ := h
        subst h2
        have hlen : (chars "http://" ++ rest).length = 7 + rest.length := by
          simp [chars]
          omega
        rw [hlen]
        have : (rest.drop ((rest.takeWhile fun c => !isJsWs c)).length).length ≤ rest.length := by
          simp [List.length_drop]
        omega
    next => exact Option.noConfusion h

def wrapLinksL (l : List Char) : List Char :=
  match l with
  | [] => []
  | c :: cs =>
    match h : tryUrl (c :: cs) with
    | some (url, after) =>
      have : after.length < (c :: cs).length := tryUrl_some_length h
      '[' :: url ++ [']', '('] ++ url ++ [')'] ++ wrapLinksL after
    | none => c :: wrapLinksL cs
termination_by l.length

def wrapLinksInMarkdown (text : String) : String := str (wrapLinksL (chars text))

/-! ## Internal-tool signature tests (src/index.js:132-135, 311) -/

/-- Whether `/"NAME"\s*:/` matches at the start of `l`. -/
def sigAt (name : List Char) (l : List Char) : Bool :=
  if startsWithL ('"' :: (name ++ ['"'])) l then
    match (l.drop (name.length + 2)).dropWhile isJsWs with
    | ':' :: _ => true
    | _ => false
  else false

/-- Whether `/"NAME"\s*:/` matches anywhere in `l` (the regex `test`). -/
def containsSig (name : List Char) : List Char → Bool
  | [] => sigAt name []
  | c :: cs => sigAt name (c :: cs) || containsSig name cs

/-! ## `nodeToMarkdown` (src/index.js:64-151 and the src/cli.js variant) -/

/-- Shared post-switch pipeline tail: suppression tests, blank test,
role-based wrapping (src/index.js:132-146). -/
def finishBody (author : Author) (skipHeader : Bool) (body : String) : String :=
  if containsSig (chars "search_query") (chars body) then ""
  else if containsSig (chars "open") (chars body) && occursIn (chars "\"url\"") (chars body) then ""
  else if containsSig (chars "find") (chars body) then ""
  else if containsSig (chars "click") (chars body) then ""
  else if jsTrim body = "" then ""
  else
    let body := if author.role = "user" then indent body else body
    if skipHeader then body
    else if author.role = "tool" then body ++ "\n\n"
    else "## " ++ author.role ++
      (if truthyStr author.name then " (" ++ jsIpol author.name ++ ")" else "") ++
      "\n\n" ++ body ++ "\n\n"

/-- The body of the `try` block of src/index.js `nodeToMarkdown`. -/
def nodeToMarkdownInner (node : Node) (skipHeader : Bool) : Except JsError String :=
  match node.message with
  | none => .ok ""
  | some msg =>
    match msg.content with
    | none => .ok ""
    | some content => do
      let body ← renderBodySwitch content
      let meta := msg.metadata.getD {}
      let citationMap := buildCitationMap meta
      let body := replaceCitationPlaceholders body citationMap
      let body := wrapLinksInMarkdown body
      let citations := extractCitations meta
      let results := extractSearchResults meta
      let body := if citations ≠ "" then body ++ citations else body
      let body := if results ≠ "" then body ++ results else body
      pure (finishBody msg.author skipHeader body)

/-- src/cli.js:163-170: the callout wrapping applied inside the cli variant
of `nodeToMarkdown` when the metadata flags in-progress reasoning (the
`delete meta.__wrap_callout` in the caller is ineffective, because the
function re-derives the flag from `reasoning_status` on every call): blank
lines are dropped and each kept line is quoted under a
`> [!info]- Reasoning` header. -/
def cliCalloutWrap (body : String) : String :=
  "> [!info]- Reasoning\n" ++ String.intercalate "\n"
    (((splitLines body).filter fun l => jsTrim l ≠ "").map fun l => "> " ++ l)

/-- The body of the `try` block of the src/cli.js `nodeToMarkdown` variant:
identically structured, except that a message whose metadata carries
`reasoning_status == "is_reasoning"` has its body wrapped in a
`> [!info]- Reasoning` callout (blank lines dropped) before the suppression
tests, and the appended citation list uses the flat-link variant. -/
def nodeToMarkdownCliInner (node : Node) (skipHeader : Bool) : Except JsError String :=
  match node.message with
  | none => .ok ""
  | some msg =>
    match msg.content with
    | none => .ok ""
    | some content => do
      let body ← renderBodySwitch content
      let meta := msg.metadata.getD {}
      let citationMap := buildCitationMap meta
      let body := replaceCitationPlaceholders body citationMap
      let body := wrapLinksInMarkdown body
      let citations := extractCitationsCli meta
      let results := extractSearchResults meta
      let body := if citations ≠ "" then body ++ citations else body
      let body := if results ≠ "" then body ++ results else body
      let body :=
        if meta.reasoning_status = some "is_reasoning" then cliCalloutWrap body
        else body
      pure (finishBody msg.author skipHeader body)

/-- JSON-escape a string the way `JSON.stringify` does. -/
def jsonEscapeChar (c : Char) : List Char :=
  if c = '"' then ['\\', '"']
  else if c = '\\' then ['\\', '\\']
  else if c = '\n' then ['\\', 'n']
  else if c = '\r' then ['\\', 'r']
  else if c = '\t' then ['\\', 't']
  else if c = '\x08' then ['\\', 'b']
  else if c = '\x0c' then ['\\', 'f']
  else if c.toNat < 0x20 then
    chars "\\u00" ++ [(Nat.digitChar (c.toNat / 16)), (Nat.digitChar (c.toNat % 16))]
  else [c]

def jsonStr (s : String) : String :=
  "\"" ++ str ((chars s).flatMap jsonEscapeChar) ++ "\""

/-- `JSON.stringify` over the modelled node shape (absent fields omitted, as
`JSON.stringify` drops `undefined` properties). -/
def stringifyFields (fields : List (Option String)) : String :=
  "\x7b" ++ String.intercalate "," (fields.filterMap id) ++ "\x7d"

def stringifyOptStr (name : String) : Option String → Option String
  | none => none
  | some v => some (jsonStr name ++ ":" ++ jsonStr v)

def stringifyPart : Part → String
  | .strPart s => jsonStr s
  | .image w h prompt =>
    stringifyFields [some (jsonStr "content_type" ++ ":" ++ jsonStr "image_asset_pointer"),
      some (jsonStr "width" ++ ":" ++ toString w),
      some (jsonStr "height" ++ ":" ++ toString h),
      (stringifyOptStr "prompt" prompt)]
  | .otherPart ct => stringifyFields [some (jsonStr "content_type" ++ ":" ++ jsonStr ct)]

def stringifyContent (c : Content) : String :=
  stringifyFields
    [some (jsonStr "content_type" ++ ":" ++ jsonStr c.content_type),
     (c.parts.map fun ps =>
       jsonStr "parts" ++ ":[" ++ String.intercalate "," (ps.map stringifyPart) ++ "]"),
     stringifyOptStr "text" c.text,
     stringifyOptStr "language" c.language,
     stringifyOptStr "summary" c.summary,
     stringifyOptStr "result" c.result,
     stringifyOptStr "title" c.title,
     stringifyOptStr "url" c.url,
     stringifyOptStr "name" c.name,
     (c.thoughts.map fun ts =>
       jsonStr "thoughts" ++ ":[" ++ String.intercalate "," (ts.map fun t =>
         stringifyFields [some (jsonStr "summary" ++ ":" ++ jsonStr t.summary),
           some (jsonStr "content" ++ ":" ++ jsonStr t.content)]) ++ "]"),
     stringifyOptStr "content" c.content]

def stringifyMetadata (m : Metadata) : String :=
  stringifyFields
    [(if m.is_visually_hidden_from_conversation then
        some (jsonStr "is_visually_hidden_from_conversation" ++ ":true") else none),
     stringifyOptStr "reasoning_status" m.reasoning_status,
     stringifyOptStr "model_slug" m.model_slug]

def stringifyMessage (msg : Message) : String :=
  stringifyFields
    [some (jsonStr "author" ++ ":" ++ stringifyFields
      [some (jsonStr "role" ++ ":" ++ jsonStr msg.author.role),
       stringifyOptStr "name" msg.author.name]),
     (msg.content.map fun c => jsonStr "content" ++ ":" ++ stringifyContent c),
     (msg.metadata.map fun m => jsonStr "metadata" ++ ":" ++ stringifyMetadata m)]

/-- `JSON.stringify(node)` (src/index.js:148). -/
def stringifyNode (node : Node) : String :=
  stringifyFields
    [(node.message.map fun m => jsonStr "message" ++ ":" ++ stringifyMessage m),
     (node.children.map fun cs =>
       jsonStr "children" ++ ":[" ++ String.intercalate "," (cs.map jsonStr) ++ "]")]

/-- src/index.js:64-151 `nodeToMarkdown`: the `catch` block appends
`"\nNode: " + JSON.stringify(node)` to the exception message and re-throws. -/
def nodeToMarkdown (node : Node) (skipHeader : Bool) : Except JsError String :=
  match nodeToMarkdownInner node skipHeader with
  | .ok v => .ok v
  | .error e => .error ⟨e.message ++ "\nNode: " ++ stringifyNode node⟩

/-- The src/cli.js `nodeToMarkdown` variant, same `catch` augmentation. -/
def nodeToMarkdownCli (node : Node) (skipHeader : Bool) : Except JsError String :=
  match nodeToMarkdownCliInner node skipHeader with
  | .ok v => .ok v
  | .error e => .error ⟨e.message ++ "\nNode: " ++ stringifyNode node⟩

/-! ## `JSON.parse` (used by the visibility filter, src/index.js:300)

A JSON value; numbers are kept as their source lexeme (the filter only ever
inspects object keys). -/

inductive Json where
  | null
  | boolV (b : Bool)
  | num (lexeme : String)
  | strV (s : String)
  | arr (elems : List Json)
  | obj (members : List (String × Json))

/-- JSON insignificant whitespace (stricter than the regex class `\s`). -/
def isJsonWsC (c : Char) : Bool := c = ' ' || c = '\t' || c = '\n' || c = '\r'

def skipJsonWs (l : List Char) : List Char := l.dropWhile isJsonWsC

def hexVal (c : Char) : Option Nat :=
  if '0' ≤ c && c ≤ '9' then some (c.toNat - 48)
  else if 'a' ≤ c && c ≤ 'f' then some (c.toNat - 87)
  else if 'A' ≤ c && c ≤ 'F' then some (c.toNat - 55)
  else none

/-- The single-character JSON string escapes. -/
def jsonEscMap (e : Char) : Option Char :=
  if e = '"' then some '"'
  else if e = '\\' then some '\\'
  else if e = '/' then some '/'
  else if e = 'b' then some '\x08'
  else if e = 'f' then some '\x0c'
  else if e = 'n' then some '\n'
  else if e = 'r' then some '\r'
  else if e = 't' then some '\t'
  else none

/-- The body of a JSON string after the opening quote: returns the decoded
characters and the text after the closing quote.  Raw control characters are
rejected; `\uXXXX` decodes through `Char.ofNat`. -/
def parseStrAux : List Char → Option (List Char × List Char)
  | [] => none
  | '"' :: r => some ([], r)
  | '\\' :: 'u' :: h1 :: h2 :: h3 :: h4 :: r =>
    (match hexVal h1, hexVal h2, hexVal h3, hexVal h4 with
     | some a, some b, some c, some d =>
       (parseStrAux r).map fun (s, rest) => (Char.ofNat (((a * 16 + b) * 16 + c) * 16 + d) :: s, rest)
     | _, _, _, _ => none)
  | '\\' :: 'u' :: _ => none
  | '\\' :: e :: r =>
    (match jsonEscMap e with
     | some c => (parseStrAux r).map fun (s, rest) => (c :: s, rest)
     | none => none)
  | '\\' :: [] => none
  | c :: r =>
    if c.toNat < 0x20 then none
    else (parseStrAux r).map fun (s, rest) => (c :: s, rest)

def isDigitC (c : Char) : Bool := '0' ≤ c && c ≤ '9'

/-- JSON number grammar, integer part: `0` or a nonzero digit followed by
digits. -/
def parseIntPart : List Char → Option (List Char × List Char)
  | [] => none
  | c :: r =>
    if c = '0' then some (['0'], r)
    else if isDigitC c then some (c :: r.takeWhile isDigitC, r.dropWhile isDigitC)
    else none

/-- JSON number grammar, optional fraction (a `.` must be followed by at
least one digit). -/
def parseFrac (l : List Char) : Option (List Char × List Char) :=
  match l with
  | '.' :: r =>
    if r.takeWhile isDigitC = [] then none
    else some ('.' :: r.takeWhile isDigitC, r.dropWhile isDigitC)
  | _ => some ([], l)

/-- JSON number grammar, optional exponent. -/
def parseExp (l : List Char) : Option (List Char × List Char) :=
  match l with
  | e :: r =>
    if e = 'e' || e = 'E' then
      let (sgn, r2) : List Char × List Char :=
        match r with
        | s :: r2 => if s = '+' || s = '-' then ([s], r2) else ([], r)
        | [] => ([], r)
      if r2.takeWhile isDigitC = [] then none
      else some (e :: (sgn ++ r2.takeWhile isDigitC), r2.dropWhile isDigitC)
    else some ([], e :: r)
  | [] => some ([], [])

def parseNumber (l : List Char) : Option (List Char × List Char) := do
  let (neg, l1) : List Char × List Char :=
    match l with
    | '-' :: r => (['-'], r)
    | _ => ([], l)
  let (ip, l2) ← parseIntPart l1
  let (fp, l3) ← parseFrac l2
  let (ep, l4) ← parseExp l3
  pure (neg ++ ip ++ fp ++ ep, l4)

mutual

/-- Recursive-descent JSON value; the fuel bounds nesting depth and is
chosen large enough at the top entry. -/
def parseValue : Nat → List Char → Option (Json × List Char)
  | 0, _ => none
  | fuel + 1, l =>
    match skipJsonWs l with
    | [] => none
    | c :: r =>
      if c = '\x7b' then
        match skipJsonWs r with
        | '\x7d' :: rest => some (.obj [], rest)
        | r2 => (parseMembers fuel r2).map fun (ms, rest) => (.obj ms, rest)
      else if c = '[' then
        match skipJsonWs r with
        | ']' :: rest => some (.arr [], rest)
        | r2 => (parseElems fuel r2).map fun (es, rest) => (.arr es, rest)
      else if c = '"' then
        (parseStrAux r).map fun (s, rest) => (.strV (str s), rest)
      else if startsWithL (chars "true") (c :: r) then some (.boolV true, r.drop 3)
      else if startsWithL (chars "false") (c :: r) then some (.boolV false, r.drop 4)
      else if startsWithL (chars "null") (c :: r) then some (.null, r.drop 3)
      else (parseNumber (c :: r)).map fun (lex, rest) => (.num (str lex), rest)

/-- One or more `"key": value` members followed by `,` or the closing
brace. -/
def parseMembers : Nat → List Char → Option (List (String × Json) × List Char)
  | 0, _ => none
  | fuel + 1, l =>
    match skipJsonWs l with
    | '"' :: r =>
      (match parseStrAux r with
       | none => none
       | some (k, r2) =>
         match skipJsonWs r2 with
         | ':' :: r3 =>
           (match parseValue fuel r3 with
            | none => none
            | some (v, r4) =>
              match skipJsonWs r4 with
              | ',' :: r5 => (parseMembers fuel r5).map fun (ms, rest) => ((str k, v) :: ms, rest)
              | '\x7d' :: r5 => some ([(str k, v)], r5)
              | _ => none)
         | _ => none)
    | _ => none

/-- One or more array elements followed by `,` or the closing bracket. -/
def parseElems : Nat → List Char → Option (List Json × List Char)
  | 0, _ => none
  | fuel + 1, l =>
    match parseValue fuel l with
    | none => none
    | some (v, r) =>
      match skipJsonWs r with
      | ',' :: r2 => (parseElems fuel r2).map fun (es, rest) => (v :: es, rest)
      | ']' :: r2 => some ([v], r2)
      | _ => none

end

/-- `JSON.parse`: one value, then only trailing whitespace.  The fuel
`length + 1` dominates any possible nesting depth. -/
def jsonParse (s : String) : Option Json :=
  match parseValue (s.length + 1) (chars s) with
  | some (v, rest) => if skipJsonWs rest = [] then some v else none
  | none => none

/-! ## The visibility filter (src/index.js:277-315) -/

/-- `typeof x === "object" && x` for a parsed JSON value (`null` is falsy,
arrays are objects). -/
def isObjLike : Json → Bool
  | .obj _ => true
  | .arr _ => true
  | _ => false

/-- `Object.keys` of a parsed JSON value: member names for an object, index
strings for an array. -/
def jsKeys : Json → List String
  | .obj ms => ms.map (·.1)
  | .arr es => (List.range es.length).map (fun i => toString i)
  | _ => []

def banned : List String := ["open", "search_query", "find", "click", "browser", "code_interpreter"]

/-- src/index.js:292-297: the `suspectText` of an assistant message (code
text, or parts joined by newline, else empty), before trimming. -/
def suspectTextRaw (msg : Message) : String :=
  match msg.content with
  | none => ""
  | some c =>
    if c.content_type = "code" then c.text.getD ""
    else match c.parts with
      | some ps => String.intercalate "\n" (ps.map partToString)
      | none => ""

/-- src/index.js:287: `node.message.content?.parts?.join("").trim()` is
falsy (the optional chain short-circuits to `undefined` when content or
parts is absent). -/
def systemTextBlank (msg : Message) : Bool :=
  match msg.content with
  | none => true
  | some c =>
    match c.parts with
    | none => true
    | some ps => jsTrim (String.join (ps.map partToString)) = ""

/-- src/index.js:277-315 `shouldIncludeMessage`. -/
def shouldIncludeMessage (node : Node) : Bool :=
  match node.message with
  | none => false
  | some msg =>
    let meta := msg.metadata.getD {}
    if meta.is_visually_hidden_from_conversation then false
    else if meta.reasoning_status = some "reasoning_ended" then false
    else if msg.author.role = "system" && systemTextBlank msg then false
    else if msg.author.role = "assistant" then
      let t := jsTrim (suspectTextRaw msg)
      let parsedBanned :=
        match jsonParse t with
        | some j => isObjLike j && (jsKeys j).any (fun k => banned.contains k)
        | none => false
      if parsedBanned then false
      else if containsSig (chars "search_query") (chars t) then false
      else true
    else true

/-! ## Tree linearization (src/index.js:175-188)

The recursive `walk` has no termination guarantee on non-tree input, so it
is embedded with a fuel bounding the recursion depth: `none` means the fuel
ran out, i.e. the JavaScript recursion nests deeper than the given bound
(for a cyclic mapping, deeper than every bound). -/

/-- src/index.js:178-183 `walk`, with the recursion made iterative over an
explicit worklist (the pending ids in depth-first order), which yields the
same pre-order push sequence as the recursive source.  The fuel is consumed
once per visited id: `none` means the budget ran out, and a run of the
JavaScript recursion that terminates visits finitely many ids, so it is
reproduced exactly by every sufficiently large budget, while a
non-terminating run exhausts every budget. -/
def walk (fuel : Nat) (m : List (String × Node)) : List String → Option (List String) :=
  fun ids =>
    match fuel, ids with
    | _, [] => some []
    | 0, _ :: _ => none
    | fuel + 1, id :: rest =>
      match List.lookup id m with
      | none => walk fuel m rest
      | some nd => (walk fuel m (nd.children.getD [] ++ rest)).map (id :: ·)

/-- src/index.js:185: the traversal root is the synthetic id when present,
else the first mapping key. -/
def rootId (m : List (String × Node)) : Option String :=
  if (List.lookup "client-created-root" m).isSome then some "client-created-root"
  else (m.map Prod.fst).head?

/-- src/index.js:175-188 `getOrderedNodeIds`, run with the given recursion
budget. -/
def getOrderedNodeIds (fuel : Nat) (conv : Conversation) : Option (List String) :=
  walk fuel conv.mapping
    (match rootId conv.mapping with
     | none => []
     | some r => [r])

def keepNode : Option Node → Bool
  | none => false
  | some nd => shouldIncludeMessage nd

/-- src/index.js:357-359: `ids.map(id => mapping[id]).filter(shouldIncludeMessage)`. -/
def filteredMessages (m : List (String × Node)) (ids : List String) : List Node :=
  ((ids.map fun id => List.lookup id m).filter keepNode).reduceOption

/-! ## The reasoning-callout assembler, src/index.js variant (361-440) -/

/-- The prefix test `/^\[[^\]]+\]\(https?:\/\/[^)]+\)/` (src/index.js:394). -/
def linkLineTest (l : List Char) : Bool :=
  match l with
  | '[' :: r =>
    let lab := r.takeWhile (fun c => c ≠ ']')
    if lab.length = 0 then false
    else
      match r.drop lab.length with
      | ']' :: '(' :: r2 =>
        let schemeLen : Nat :=
          if startsWithL (chars "https://") r2 then 8
          else if startsWithL (chars "http://") r2 then 7
          else 0
        if schemeLen = 0 then false
        else
          let r3 := r2.drop schemeLen
          let inner := r3.takeWhile (fun c => c ≠ ')')
          if inner.length = 0 then false
          else
            match r3.drop inner.length with
            | ')' :: _ => true
            | _ => false
      | _ => false
  | _ => false

def isWordChar (c : Char) : Bool :=
  ('a' ≤ c && c ≤ 'z') || ('A' ≤ c && c ≤ 'Z') || ('0' ≤ c && c ≤ '9') || c = '_'

/-- The prefix test `/^\[!\w+\]/i` (src/index.js:389). -/
def calloutHeadTest (l : List Char) : Bool :=
  match l with
  | '[' :: '!' :: r =>
    let w := r.takeWhile isWordChar
    if w.length = 0 then false
    else
      match r.drop w.length with
      | ']' :: _ => true
      | _ => false
  | _ => false

/-- src/index.js:384-391: which lines count when classifying a reasoning
body as link-only. -/
def candidateFilter (line : String) : Bool :=
  let t := jsTrim line
  if t = "" then false
  else if startsWithL (chars "```") (chars t) then false
  else if startsWithL (chars "#") (chars t) then false
  else if calloutHeadTest (chars t) then false
  else true

/-- src/index.js:406-420: scan for the first non-blank line; when it is a
level-5 heading, use it (leading `#`s and whitespace stripped,
`/^#+\s*/`) as the nested title and drop that line; stop at the first
non-blank line either way. -/
def titleScan : List String → String × List String
  | [] => ("Reasoning", [])
  | line :: rest =>
    let t := jsTrim line
    if t = "" then
      let (ti, out) := titleScan rest
      (ti, line :: out)
    else if startsWithL (chars "#####") (chars t) then
      (str (((chars t).dropWhile (fun c => c = '#')).dropWhile isJsWs), rest)
    else ("Reasoning", line :: rest)

/-- src/index.js:366-436, reasoning branch: the sequence of strings pushed
for one reasoning message after the outer-callout bookkeeping (the nested
callout header followed by the re-quoted content lines). -/
def reasoningPushesIdx (raw : String) : List String :=
  let contentLines := splitLines (jsTrim raw)
  let candidateLines := contentLines.filter candidateFilter
  let hasLinks := candidateLines.any fun line => linkLineTest (chars (jsTrim line))
  let onlyLinks := hasLinks && candidateLines.all fun line =>
    jsTrim line = "" || linkLineTest (chars (jsTrim line))
  let (calloutTitle, outputLines) :=
    if onlyLinks then ("Reasoning", contentLines) else titleScan contentLines
  (if onlyLinks then [">> [!quote]- Links\n"]
   else [">> [!example]- " ++ calloutTitle ++ "\n"]) ++
  outputLines.map fun line =>
    let t := jsTrim line
    if t ≠ "" then ">> " ++ t ++ "\n" else ">>\n"

/-- src/index.js:361-440: the message loop.  The result is the `parts`
list; `inCallout` is the running state.  A node that reaches the loop with
no `message` makes the metadata access throw. -/
def assembleIdxGo (inCallout : Bool) : List Node → Except JsError (List String)
  | [] => pure (if inCallout then ["\n"] else [])
  | n :: rest =>
    match n.message with
    | none => .error ⟨"Cannot read properties of undefined (reading 'metadata')"⟩
    | some msg =>
      let meta := msg.metadata.getD {}
      if meta.reasoning_status = some "is_reasoning" then do
        let rawContent ← nodeToMarkdown n true
        let head := if inCallout then ["> \n"] else ["> [!info]- Reasoning\n"]
        let parts ← assembleIdxGo true rest
        pure (head ++ reasoningPushesIdx rawContent ++ parts)
      else do
        let rendered ← nodeToMarkdown n false
        let parts ← assembleIdxGo inCallout rest
        pure ([rendered] ++ parts)

def assembleIdx (nodes : List Node) : Except JsError (List String) :=
  assembleIdxGo false nodes

/-! ## The reasoning-callout assembler, src/cli.js variant (345-378) -/

/-- `l.replace(/^>+\s*/, "")` (src/cli.js:355). -/
def stripQuoteMarks (s : String) : String :=
  match chars s with
  | '>' :: _ => str (((chars s).dropWhile (fun c => c = '>')).dropWhile isJsWs)
  | _ => s

/-- `first.replace(/^\[!info\]-?\s*/i, "")` (src/cli.js:366). -/
def stripInfoTag (s : String) : String :=
  match chars s with
  | '[' :: '!' :: c1 :: c2 :: c3 :: c4 :: ']' :: r =>
    if c1.toLower = 'i' && c2.toLower = 'n' && c3.toLower = 'f' && c4.toLower = 'o' then
      str ((match r with | '-' :: r2 => r2 | _ => r).dropWhile isJsWs)
    else s
  | _ => s

/-- src/cli.js:350-369, reasoning branch: quote markers are stripped from
the (already callout-wrapped) rendering, blank lines are dropped, the first
line (its `[!info]` tag stripped) becomes the nested title. -/
def reasoningPushesCli (raw : String) : List String :=
  let rawLines := ((splitLines raw).map stripQuoteMarks).filter fun l => jsTrim l ≠ ""
  match rawLines with
  | [] => []
  | first :: rest =>
    (">> [!example]- " ++ jsTrim (stripInfoTag first) ++ "\n") ::
      rest.map (fun l => ">> " ++ l ++ "\n")

/-- src/cli.js:345-378: the message loop.  Unlike the index.js variant, a
normal message closes an open callout (`parts.push("\n"); inCallout =
false`) before being rendered. -/
def assembleCliGo (inCallout : Bool) : List Node → Except JsError (List String)
  | [] => pure (if inCallout then ["\n"] else [])
  | n :: rest =>
    match n.message with
    | none => .error ⟨"Cannot read properties of undefined (reading 'metadata')"⟩
    | some msg =>
      let meta := msg.metadata.getD {}
      if meta.reasoning_status = some "is_reasoning" then do
        let raw ← nodeToMarkdownCli n true
        let head := if inCallout then ["> \n"] else ["> [!info]- Reasoning\n"]
        let parts ← assembleCliGo true rest
        pure (head ++ reasoningPushesCli raw ++ parts)
      else do
        let rendered ← nodeToMarkdownCli n false
        let parts ← assembleCliGo false rest
        pure ((if inCallout then ["\n"] else []) ++ [rendered] ++ parts)

def assembleCli (nodes : List Node) : Except JsError (List String) :=
  assembleCliGo false nodes

/-! ## Per-conversation file write (src/index.js:325-445, src/cli.js:280-383) -/

/-- The arguments of one `fs.utimes` call, in Node's order
`utimes(path, atime, mtime)`. -/
structure UtimesArgs where
  atime : Int
  mtime : Int
deriving DecidableEq, Repr

/-- src/index.js:444:
`fs.utimes(filePath, conversation.create_time, conversation.update_time)`. -/
def utimesArgsIdx (conversation : Conversation) : UtimesArgs :=
  ⟨conversation.create_time, conversation.update_time⟩

/-- src/cli.js:382:
`fs.utimes(filePath, conversation.update_time, conversation.create_time)`. -/
def utimesArgsCli (conversation : Conversation) : UtimesArgs :=
  ⟨conversation.update_time, conversation.create_time⟩

/-- src/index.js:326-327: the output file name. -/
def outputFileName (conversation : Conversation) : String :=
  chosenFileTitle conversation.title conversation.conversation_id ++ ".md"

/-! ## Auxiliary predicates for the scanner theorems -/

/-- No whitespace character occurs (a "maximal whitespace-delimited token"
is a maximal run of such characters). -/
def noWsToken (t : List Char) : Bool := t.all fun c => !isJsWs c

/-- Whether the bare-URL regex matches at some position of `l`. -/
def hasUrlStart : List Char → Bool
  | [] => false
  | c :: cs => (tryUrl (c :: cs)).isSome || hasUrlStart cs

/-- Whether the scanner, run over `pre ++ rest`, finds no URL match starting
inside `pre`. -/
def passThrough (pre rest : List Char) : Bool :=
  match pre with
  | [] => true
  | c :: pr => !(tryUrl (c :: (pr ++ rest))).isSome && passThrough pr rest

/-- A citation placeholder token: sentinel, the letters `cite`, sentinel,
identifier, sentinel. -/
def mkCiteToken (s1 s2 s3 : Char) (id : List Char) : List Char :=
  s1 :: 'c' :: 'i' :: 't' :: 'e' :: s2 :: (id ++ [s3])

/-- A segment of a body text: plain (sentinel-free) text, or one citation
placeholder token. -/
inductive CiteSeg where
  | plain (text : List Char)
  | token (s1 s2 s3 : Char) (id : List Char)

def citeSegChars : CiteSeg → List Char
  | .plain t => t
  | .token s1 s2 s3 id => mkCiteToken s1 s2 s3 id

/-- Well-formedness: plain text carries no sentinel characters; a token's
delimiters are sentinels and its identifier contains no sentinel and no
line terminator. -/
def citeSegWf : CiteSeg → Bool
  | .plain t => t.all fun c => !isPUA c
  | .token s1 s2 s3 id =>
    isPUA s1 && isPUA s2 && isPUA s3 && id.all fun c => !isPUA c && !isJsLineTerm c

/-- What the source replaces each segment with: plain text is kept, a token
becomes `citationMap[id] || ""`. -/
def citeSegSubst (map : List (String × String)) : CiteSeg → List Char
  | .plain t => t
  | .token _ _ _ id => chars ((List.lookup (str id) map).getD "")

/-! ## Concrete example inputs used by counterexamples and witnesses -/

/-- A reasoning-status message node with a plain one-word body. -/
def rNode : Node :=
  { message := some
      { author := { role := "assistant" }
        content := some { content_type := "text", parts := some [.strPart "think"] }
        metadata := some { reasoning_status := some "is_reasoning" } } }

/-- A normal assistant message node. -/
def nNode : Node :=
  { message := some
      { author := { role := "assistant" }
        content := some { content_type := "text", parts := some [.strPart "hello"] } } }

/-- Two further reasoning nodes for the three-in-a-row witness. -/
def rNode2 : Node :=
  { message := some
      { author := { role := "assistant" }
        content := some { content_type := "text", parts := some [.strPart "more"] }
        metadata := some { reasoning_status := some "is_reasoning" } } }

def rNode3 : Node :=
  { message := some
      { author := { role := "assistant" }
        content := some { content_type := "text", parts := some [.strPart "done"] }
        metadata := some { reasoning_status := some "is_reasoning" } } }

/-- Concrete segment list for the citation-replacement witness: plain text
around one resolvable and one unresolvable token. -/
def c5Segs : List CiteSeg :=
  [.plain (chars "A "), .token '\uE000' '\uE001' '\uE002' (chars "7"),
   .plain (chars " B "), .token '\uE000' '\uE001' '\uE002' (chars "9")]

/-- An assistant message whose raw text is a JSON object with the banned
key `search_query`. -/
def c6Node : Node :=
  { message := some
      { author := { role := "assistant" }
        content := some
          { content_type := "text"
            parts := some [.strPart "\x7b\"search_query\": \"x\"\x7d"] } } }

def c2Conv : Conversation := { create_time := 100, update_time := 200 }

def c4Content : Content := { content_type := "code", language := some "unknownx", text := some "t" }

/-- A node whose rendering throws: a `text` content with no `parts`. -/
def c8Node : Node :=
  { message := some { author := { role := "assistant" }, content := some { content_type := "text" } } }

/-- A mapping in which `b` is reachable from the root `a` twice. -/
def dagMapping : List (String × Node) :=
  [("a", { children := some ["b", "b"] }), ("b", {})]

/-- A mapping whose root is its own child. -/
def cycMapping : List (String × Node) := [("a", { children := some ["a"] })]

/-! ## Shared helper lemmas -/

theorem occursIn_iff (p l : List Char) : occursIn p l = true ↔ ∃ a b, l = a ++ (p ++ b) := by
  induction l with
  | nil =>
    simp only [occursIn, startsWithL_iff]
    constructor
    · rintro ⟨rest, h⟩; exact ⟨[], rest, by simpa using h⟩
    · rintro ⟨a, b, h⟩
      rw [eq_comm, List.append_eq_nil] at h
      obtain ⟨rfl, h2⟩ := h
      rw [List.append_eq_nil] at h2
      exact ⟨b, by simp [h2.1, h2.2]⟩
  | cons c cs ih =>
    simp only [occursIn, Bool.or_eq_true, startsWithL_iff, ih]
    constructor
    · rintro (⟨rest, heq⟩ | ⟨a, b, rfl⟩)
      · exact ⟨[], rest, by simpa using heq⟩
      · exact ⟨c :: a, b, by simp⟩
    · rintro ⟨a, b, heq⟩
      cases a with
      | nil => exact .inl ⟨b, by simpa using heq⟩
      | cons a0 as =>
        simp only [List.cons_append, List.cons.injEq] at heq
        exact .inr ⟨as, b, heq.2⟩

theorem occursIn_cons_of (p : List Char) (c : Char) (cs : List Char)
    (h : occursIn p cs = true) : occursIn p (c :: cs) = true := by
  simp [occursIn, h]

theorem occursIn_dropWhile (p : List Char) (q : Char → Bool) (l : List Char)
    (h : occursIn p (l.dropWhile q) = true) : occursIn p l = true := by
  induction l with
  | nil => simpa [List.dropWhile] using h
  | cons c cs ih =>
    rw [List.dropWhile_cons] at h
    split at h
    · exact occursIn_cons_of _ _ _ (ih h)
    · exact h

theorem occursIn_of_reverse {p l : List Char} (h : occursIn p l.reverse = true) :
    occursIn p.reverse l = true := by
  rw [occursIn_iff] at h ⊢
  obtain ⟨a, b, heq⟩ := h
  have := congrArg List.reverse heq
  rw [List.reverse_reverse] at this
  exact ⟨b.reverse, a.reverse, by simpa [List.reverse_append, List.append_assoc] using this⟩

theorem head?_collapseWsAux_true (l : List Char) : (collapseWsAux true l).head? ≠ some ' ' := by
  induction l with
  | nil => simp [collapseWsAux]
  | cons c cs ih =>
    by_cases hc : isJsWs c
    · simpa [collapseWsAux, hc] using ih
    · simp only [collapseWsAux, hc, if_false, Bool.false_eq_true, List.head?_cons, ne_eq,
        Option.some.injEq]
      rintro rfl
      exact hc (by decide)

theorem startsWithL_single (a : Char) (l : List Char) :
    startsWithL [a] l = true ↔ l.head? = some a := by
  cases l with
  | nil => simp [startsWithL]
  | cons c cs => simp [startsWithL, eq_comm]

theorem collapseWsAux_no_pair (l : List Char) :
    ∀ b, occursIn [' ', ' '] (collapseWsAux b l) = false := by
  induction l with
  | nil => intro b; rfl
  | cons c cs ih =>
    intro b
    by_cases hc : isJsWs c
    · cases b with
      | true => simpa [collapseWsAux, hc] using ih true
      | false =>
        rw [show collapseWsAux false (c :: cs) = ' ' :: collapseWsAux true cs from by
          simp [collapseWsAux, hc]]
        rw [show occursIn [' ', ' '] (' ' :: collapseWsAux true cs) =
          (startsWithL [' ', ' '] (' ' :: collapseWsAux true cs) ||
            occursIn [' ', ' '] (collapseWsAux true cs)) from rfl]
        rw [ih true, Bool.or_false]
        rw [show startsWithL [' ', ' '] (' ' :: collapseWsAux true cs) =
          startsWithL [' '] (collapseWsAux true cs) from by simp [startsWithL]]
        cases hsw : startsWithL [' '] (collapseWsAux true cs) with
        | false => rfl
        | true =>
          exact absurd ((startsWithL_single _ _).1 hsw) (head?_collapseWsAux_true cs)
    · rw [show collapseWsAux b (c :: cs) = c :: collapseWsAux false cs from by
        simp [collapseWsAux, hc]]
      rw [show occursIn [' ', ' '] (c :: collapseWsAux false cs) =
        (startsWithL [' ', ' '] (c :: collapseWsAux false cs) ||
          occursIn [' ', ' '] (collapseWsAux false cs)) from rfl]
      rw [ih false, Bool.or_false]
      have hcne : c ≠ ' ' := by rintro rfl; exact hc (by decide)
      simp [startsWithL, Ne.symm hcne]

theorem mem_collapseWsAux {c : Char} :
    ∀ (l : List Char) (b : Bool), c ∈ collapseWsAux b l → c = ' ' ∨ (c ∈ l ∧ isJsWs c = false) := by
  intro l
  induction l with
  | nil => intro b h; simp [collapseWsAux] at h
  | cons x xs ih =>
    intro b h
    by_cases hx : isJsWs x
    · cases b with
      | true =>
        rw [show collapseWsAux true (x :: xs) = collapseWsAux true xs from by
          simp [collapseWsAux, hx]] at h
        rcases ih true h with h1 | h2
        · exact .inl h1
        · exact .inr ⟨List.mem_cons_of_mem _ h2.1, h2.2⟩
      | false =>
        rw [show collapseWsAux false (x :: xs) = ' ' :: collapseWsAux true xs from by
          simp [collapseWsAux, hx]] at h
        rcases List.mem_cons.1 h with rfl | h
        · exact .inl rfl
        · rcases ih true h with h1 | h2
          · exact .inl h1
          · exact .inr ⟨List.mem_cons_of_mem _ h2.1, h2.2⟩
    · rw [show collapseWsAux b (x :: xs) = x :: collapseWsAux false xs from by
        simp [collapseWsAux, hx]] at h
      rcases List.mem_cons.1 h with rfl | h
      · exact .inr ⟨List.mem_cons_self _ _, by simpa using hx⟩
      · rcases ih false h with h1 | h2
        · exact .inl h1
        · exact .inr ⟨List.mem_cons_of_mem _ h2.1, h2.2⟩

theorem mem_jsTrimL {c : Char} {l : List Char} (h : c ∈ jsTrimL l) : c ∈ l := by
  simp only [jsTrimL, List.mem_reverse] at h
  have h1 := (List.dropWhile_sublist _).subset h
  rw [List.mem_reverse] at h1
  exact (List.dropWhile_sublist _).subset h1

theorem head?_dropWhile_not {p : Char → Bool} {l : List Char} {c : Char}
    (h : (l.dropWhile p).head? = some c) : p c = false := by
  induction l with
  | nil => simp [List.dropWhile] at h
  | cons x xs ih =>
    rw [List.dropWhile_cons] at h
    split at h
    · exact ih h
    · next hx =>
      simp only [List.head?_cons, Option.some.injEq] at h
      subst h
      simpa using hx

theorem getLast?_dropWhile_of_ne_nil {p : Char → Bool} {l : List Char}
    (h : l.dropWhile p ≠ []) : (l.dropWhile p).getLast? = l.getLast? := by
  induction l with
  | nil => simp [List.dropWhile] at h
  | cons x xs ih =>
    rw [List.dropWhile_cons] at h ⊢
    split at h
    · next hx =>
      rw [if_pos hx, ih h]
      have hxs : xs ≠ [] := by
        rintro rfl
        simp [List.dropWhile] at h
      rw [List.getLast?_eq_head?_reverse, List.getLast?_eq_head?_reverse, List.reverse_cons,
        List.head?_append_of_ne_nil _ (by simpa using hxs)]
    · next hx => rw [if_neg hx]

/-! ## Scanner evaluation lemmas -/

theorem replaceCiteL_nil (map : List (String × String)) : replaceCiteL map [] = [] := by
  rw [replaceCiteL]

theorem replaceCiteL_step_nonpua (map : List (String × String)) {c : Char} {cs : List Char}
    (h : isPUA c = false) : replaceCiteL map (c :: cs) = c :: replaceCiteL map cs := by
  rw [replaceCiteL]
  rw [if_neg (by simp [h])]

theorem replaceCiteL_step_nofind (map : List (String × String)) {c : Char} {cs : List Char}
    (hc : isPUA c = true) (h : citeTokenAt cs = none) :
    replaceCiteL map (c :: cs) = c :: replaceCiteL map cs := by
  rw [replaceCiteL]
  rw [if_pos hc]
  split
  · next heq => rw [h] at heq; exact Option.noConfusion heq
  · rfl

theorem replaceCiteL_step_token (map : List (String × String)) {c : Char}
    {cs id r : List Char} (hc : isPUA c = true) (h : citeTokenAt cs = some (id, r)) :
    replaceCiteL map (c :: cs) =
      chars ((List.lookup (str id) map).getD "") ++ replaceCiteL map r := by
  rw [replaceCiteL]
  rw [if_pos hc]
  split
  · next id' r' heq =>
    rw [h] at heq
    have hp := Option.some.inj heq
    obtain ⟨rfl, rfl⟩ : id = id' ∧ r = r' := ⟨congrArg Prod.fst hp, congrArg Prod.snd hp⟩
    rfl
  · next heq => rw [h] at heq; exact Option.noConfusion heq

theorem replaceCiteL_no_pua (map : List (String × String)) :
    ∀ l : List Char, l.all (fun c => !isPUA c) = true → replaceCiteL map l = l := by
  intro l
  induction l with
  | nil => intro _; exact replaceCiteL_nil map
  | cons c cs ih =>
    intro h
    simp only [List.all_cons, Bool.and_eq_true, Bool.not_eq_true'] at h
    rw [replaceCiteL_step_nonpua map h.1]
    rw [ih (by simpa using h.2)]

theorem wrapLinksL_step_none {c : Char} {cs : List Char} (h : tryUrl (c :: cs) = none) :
    wrapLinksL (c :: cs) = c :: wrapLinksL cs := by
  rw [wrapLinksL]
  split
  · next heq => rw [h] at heq; exact Option.noConfusion heq
  · rfl

theorem wrapLinksL_step_some {c : Char} {cs url after : List Char}
    (h : tryUrl (c :: cs) = some (url, after)) :
    wrapLinksL (c :: cs) = '[' :: url ++ [']', '('] ++ url ++ [')'] ++ wrapLinksL after := by
  rw [wrapLinksL]
  split
  · next url' after' heq =>
    rw [h] at heq
    obtain ⟨rfl, rfl⟩ : url = url' ∧ after = after' := by
      have := Option.some.inj heq
      exact ⟨congrArg Prod.fst this, congrArg Prod.snd this⟩
    simp
  · next heq => rw [h] at heq; exact Option.noConfusion heq

theorem wrapLinksL_of_no_url : ∀ l : List Char, hasUrlStart l = false → wrapLinksL l = l := by
  intro l
  induction l with
  | nil => intro _; rw [wrapLinksL]
  | cons c cs ih =>
    intro h
    simp only [hasUrlStart, Bool.or_eq_false_iff] at h
    have hnone : tryUrl (c :: cs) = none := by
      cases htu : tryUrl (c :: cs) with
      | none => rfl
      | some v => rw [htu] at h; simp at h
    rw [wrapLinksL_step_none hnone, ih h.2]

/-- A body whose characters contain no citation sentinel and no URL start
passes through the two post-processing scanners unchanged. -/
theorem postScan_id (map : List (String × String)) (B : String)
    (hpua : (chars B).all (fun c => !isPUA c) = true)
    (hurl : hasUrlStart (chars B) = false) :
    wrapLinksInMarkdown (replaceCitationPlaceholders B map) = B := by
  unfold replaceCitationPlaceholders wrapLinksInMarkdown
  rw [replaceCiteL_no_pua map _ hpua]
  simp only [chars_str]
  rw [wrapLinksL_of_no_url _ hurl]
  simp

/-! ## Render pipeline evaluation lemmas -/

/-- Rendering a node whose body carries no citation sentinel, no URL, and
whose metadata has no citations or search results: the body goes through
the pipeline unchanged and only the role wrapping applies. -/
theorem nodeToMarkdown_plain (node : Node) (msg : Message) (content : Content) (B : String)
    (hmsg : node.message = some msg) (hc : msg.content = some content)
    (hB : renderBodySwitch content = .ok B)
    (hpua : (chars B).all (fun c => !isPUA c) = true)
    (hurl : hasUrlStart (chars B) = false)
    (hcit : (msg.metadata.getD {}).citations = none)
    (hres : (msg.metadata.getD {}).search_result_groups = none) :
    ∀ sk, nodeToMarkdown node sk = .ok (finishBody msg.author sk B) := by
  intro sk
  have hmap : buildCitationMap (msg.metadata.getD {}) = [] := by
    unfold buildCitationMap
    rw [hcit]
  have hcits : extractCitations (msg.metadata.getD {}) = "" := by
    unfold extractCitations
    rw [hcit]
  have hress : extractSearchResults (msg.metadata.getD {}) = "" := by
    unfold extractSearchResults
    rw [hres]
  have hinner : nodeToMarkdownInner node sk = .ok (finishBody msg.author sk B) := by
    unfold nodeToMarkdownInner
    rw [hmsg]
    dsimp only
    rw [hc]
    dsimp only
    rw [hB]
    show Except.ok _ = _
    rw [hmap, hcits, hress]
    simp only [ne_eq, not_true_eq_false, if_false]
    rw [postScan_id [] B hpua hurl]
  unfold nodeToMarkdown
  rw [hinner]

/-- The cli-variant analogue: additionally, a reasoning-status metadata
wraps the body in the `[!info]` callout before role wrapping. -/
theorem nodeToMarkdownCli_plain (node : Node) (msg : Message) (content : Content) (B : String)
    (hmsg : node.message = some msg) (hc : msg.content = some content)
    (hB : renderBodySwitch content = .ok B)
    (hpua : (chars B).all (fun c => !isPUA c) = true)
    (hurl : hasUrlStart (chars B) = false)
    (hcit : (msg.metadata.getD {}).citations = none)
    (hres : (msg.metadata.getD {}).search_result_groups = none) :
    ∀ sk, nodeToMarkdownCli node sk = .ok (finishBody msg.author sk
      (if (msg.metadata.getD {}).reasoning_status = some "is_reasoning" then cliCalloutWrap B
       else B)) := by
  intro sk
  have hmap : buildCitationMap (msg.metadata.getD {}) = [] := by
    unfold buildCitationMap
    rw [hcit]
  have hcits : extractCitationsCli (msg.metadata.getD {}) = "" := by
    unfold extractCitationsCli
    rw [hcit]
  have hress : extractSearchResults (msg.metadata.getD {}) = "" := by
    unfold extractSearchResults
    rw [hres]
  have hinner : nodeToMarkdownCliInner node sk = .ok (finishBody msg.author sk
      (if (msg.metadata.getD {}).reasoning_status = some "is_reasoning" then cliCalloutWrap B
       else B)) := by
    unfold nodeToMarkdownCliInner
    rw [hmsg]
    dsimp only
    rw [hc]
    dsimp only
    rw [hB]
    show Except.ok _ = _
    rw [hmap, hcits, hress]
    simp only [ne_eq, not_true_eq_false, if_false]
    rw [postScan_id [] B hpua hurl]
  unfold nodeToMarkdownCli
  rw [hinner]

/-! ## Claim C2 -/

/-- C2, counterexample: the claim says every timestamp-setting call passes
`atime = create_time, mtime = update_time`, but the src/cli.js call
(line 382) passes `(update_time, create_time)`: at a conversation with
`create_time = 100, update_time = 200` its mtime argument is `100`, not the
update value. -/
theorem C2_counterexample :
    utimesArgsCli c2Conv = ⟨200, 100⟩ ∧
    utimesArgsCli c2Conv ≠ ⟨c2Conv.create_time, c2Conv.update_time⟩ := by
  exact ⟨rfl, by decide⟩

/-- C2, amended: the src/index.js call passes `(create_time, update_time)`
(atime = creation, mtime = update) exactly as claimed, while the src/cli.js
duplicate swaps the two; both are pure functions of the conversation's two
epoch fields and never of wall-clock time. -/
theorem C2_amended :
    ∀ conversation : Conversation,
      utimesArgsIdx conversation =
        ⟨conversation.create_time, conversation.update_time⟩ ∧
      utimesArgsCli conversation =
        ⟨conversation.update_time, conversation.create_time⟩ :=
  fun _ => ⟨rfl, rfl⟩

/-! ## Claim C4 -/

/-- C4, counterexample: the claim says every declared language other than
`"unknown"` passes through unchanged, but `language.replace("unknown", "")`
removes the substring: the language `"unknownx"` renders with tag `"x"`,
not `"unknownx"`. -/
theorem C4_counterexample :
    renderBodySwitch c4Content = .ok "```x\nt\n```" ∧
    ("```x\nt\n```" : String) ≠ "```unknownx\nt\n```" := by
  exact ⟨rfl, by decide⟩

/-- C4, amended: the code branch removes the first occurrence of the
substring `"unknown"` from the declared language; hence the exact language
`"unknown"` yields no tag, and any language not containing `"unknown"` as a
substring passes through unchanged. -/
theorem C4_amended :
    codeLanguageTag "unknown" = "" ∧
    (∀ language : String, occursIn (chars "unknown") (chars language) = false →
      codeLanguageTag language = language) ∧
    (∀ language text : String,
      renderBodySwitch { content_type := "code", language := some language, text := some text } =
        .ok ("```" ++ codeLanguageTag language ++ "\n" ++ text ++ "\n```")) := by
  refine ⟨rfl, ?_, ?_⟩
  · intro lang h
    unfold codeLanguageTag
    rw [replaceFirstL_of_not_occurs _ _ _ h]
    exact str_chars lang
  · intro lang text
    rfl

/-- C4, witness for the amended theorem at the concrete language
`"python"`. -/
theorem C4_witness :
    codeLanguageTag "python" = "python" ∧
    renderBodySwitch { content_type := "code", language := some "python", text := some "print" } =
      .ok "```python\nprint\n```" :=
  ⟨C4_amended.2.1 "python" (by decide),
   by rw [C4_amended.2.2 "python" "print", C4_amended.2.1 "python" (by decide)]; rfl⟩

/-! ## Claim C7 -/

/-- C7: `sanitizeFileName` leaves no reserved path character or newline in
the result (every whitespace that survives is a single space), no two
consecutive spaces survive, the result is trimmed at both ends, the
spec's concrete example holds, and a title sanitizing to the empty string
falls back to the conversation identifier. -/
theorem C7_sanitize_title :
    (∀ t : String, ∀ c ∈ chars (sanitizeFileName t),
      isInvalidFileChar c = false ∧ (isJsWs c = true → c = ' ')) ∧
    (∀ t : String, occursIn [' ', ' '] (chars (sanitizeFileName t)) = false) ∧
    (∀ (t : String) (c : Char),
      (chars (sanitizeFileName t)).head? = some c → isJsWs c = false) ∧
    (∀ (t : String) (c : Char),
      (chars (sanitizeFileName t)).getLast? = some c → isJsWs c = false) ∧
    sanitizeFileName "a: b?\nc" = "a b c" ∧
    (∀ title cid : String, sanitizeFileName title = "" → chosenFileTitle title cid = cid) ∧
    chosenFileTitle "<>:\"/\\|?*" "conv-123" = "conv-123" := by
  have hchars : ∀ t : String, chars (sanitizeFileName t) =
      jsTrimL (collapseWs ((chars t).map sanitizeReplaceInvalid)) := fun _ => rfl
  refine ⟨?_, ?_, ?_, ?_, by decide, ?_, by decide⟩
  · intro t c hc
    rw [hchars] at hc
    have h1 := mem_jsTrimL hc
    rcases mem_collapseWsAux _ _ h1 with rfl | ⟨hmem, hws⟩
    · exact ⟨by decide, fun _ => rfl⟩
    · obtain ⟨x, -, hx⟩ := List.mem_map.1 hmem
      constructor
      · subst hx
        unfold sanitizeReplaceInvalid
        split
        · decide
        · next hinv => simpa [isInvalidFileChar] using hinv
      · intro hcontr
        rw [hcontr] at hws
        exact absurd hws (by simp)
  · intro t
    rw [hchars]
    cases h : occursIn [' ', ' ']
        (jsTrimL (collapseWs ((chars t).map sanitizeReplaceInvalid))) with
    | false => rfl
    | true =>
      exfalso
      set X := collapseWs ((chars t).map sanitizeReplaceInvalid) with hX
      have h1 : occursIn [' ', ' '] ((X.dropWhile isJsWs).reverse.dropWhile isJsWs) = true := by
        have := occursIn_of_reverse (p := [' ', ' ']) h
        simpa using this
      have h2 := occursIn_dropWhile _ _ _ h1
      have h3 : occursIn [' ', ' '] (X.dropWhile isJsWs) = true := by
        have := occursIn_of_reverse (p := [' ', ' ']) h2
        simpa using this
      have h4 := occursIn_dropWhile _ _ _ h3
      rw [hX] at h4
      exact absurd h4 (by simp [collapseWs, collapseWsAux_no_pair])
  · intro t c hc
    rw [hchars] at hc
    rw [jsTrimL, List.head?_reverse] at hc
    have hne : ((collapseWs ((chars t).map sanitizeReplaceInvalid)).dropWhile
        isJsWs).reverse.dropWhile isJsWs ≠ [] := by
      intro hnil
      rw [hnil] at hc
      simp at hc
    rw [getLast?_dropWhile_of_ne_nil hne, List.getLast?_reverse] at hc
    exact head?_dropWhile_not hc
  · intro t c hc
    rw [hchars] at hc
    rw [jsTrimL, List.getLast?_reverse] at hc
    exact head?_dropWhile_not hc
  · intro title cid h
    unfold chosenFileTitle
    rw [h]
    simp

/-- C7, witness: the universally quantified parts of the claim theorem at
concrete inputs. -/
theorem C7_witness :
    (isInvalidFileChar 'b' = false ∧ (isJsWs 'b' = true → 'b' = ' ')) ∧
    isJsWs 'x' = false ∧
    chosenFileTitle "???" "conv-9" = "conv-9" := by
  refine ⟨C7_sanitize_title.1 "a:b" 'b' (by decide), ?_, ?_⟩
  · exact C7_sanitize_title.2.2.1 ":x" 'x' (by decide)
  · exact C7_sanitize_title.2.2.2.2.2.1 "???" "conv-9" (by decide)

/-! ## Claim C8 -/

/-- C8: whenever the body of `nodeToMarkdown`'s `try` block throws, the
function neither swallows the error nor returns a value: it re-throws an
error whose message is the original message with `"\nNode: "` and the
node's full serialization appended. -/
theorem C8_error_propagation :
    ∀ (node : Node) (skipHeader : Bool) (e : JsError),
      nodeToMarkdownInner node skipHeader = .error e →
      nodeToMarkdown node skipHeader =
        .error ⟨e.message ++ "\nNode: " ++ stringifyNode node⟩ := by
  intro node sk e h
  simp [nodeToMarkdown, h]

/-- C8, witness: a `text` content with no `parts` throws while rendering;
the propagated error carries the serialized node. -/
theorem C8_witness :
    nodeToMarkdown c8Node false =
      .error ⟨"Cannot read properties of undefined (reading 'join')" ++ "\nNode: " ++
        stringifyNode c8Node⟩ :=
  C8_error_propagation c8Node false
    ⟨"Cannot read properties of undefined (reading 'join')"⟩ rfl

/-! ## Claim C3 -/

theorem walk_mono {m : List (String × Node)} :
    ∀ {fuel : Nat} {ids out : List String},
      walk fuel m ids = some out → walk (fuel + 1) m ids = some out := by
  intro fuel
  induction fuel with
  | zero =>
    intro ids out h
    cases ids with
    | nil => simpa [walk] using h
    | cons id rest => simp [walk] at h
  | succ f ih =>
    intro ids out h
    cases ids with
    | nil => simpa [walk] using h
    | cons id rest =>
      simp only [walk] at h ⊢
      split at h
      · next heq => exact ih h
      · next nd heq =>
        cases hw : walk f m (nd.children.getD [] ++ rest) with
        | none => rw [hw] at h; simp at h
        | some out' =>
          rw [hw] at h
          rw [ih hw]
          exact h

theorem walk_mem_keys {m : List (String × Node)} :
    ∀ (fuel : Nat) (ids out : List String), walk fuel m ids = some out →
      ∀ id ∈ out, (List.lookup id m).isSome = true := by
  intro fuel
  induction fuel with
  | zero =>
    intro ids out h
    cases ids with
    | nil => simp [walk] at h; subst h; simp
    | cons id rest => simp [walk] at h
  | succ f ih =>
    intro ids out h
    cases ids with
    | nil => simp [walk] at h; subst h; simp
    | cons id rest =>
      simp only [walk] at h
      split at h
      · next heq => exact ih rest out h
      · next nd heq =>
        cases hw : walk f m (nd.children.getD [] ++ rest) with
        | none => rw [hw] at h; simp at h
        | some out' =>
          rw [hw] at h
          simp only [Option.map_some', Option.some.injEq] at h
          subst h
          intro x hx
          rcases List.mem_cons.1 hx with rfl | hmem
          · simp [heq]
          · exact ih _ out' hw x hmem

theorem walk_cyc_none : ∀ fuel, walk fuel cycMapping ["a"] = none := by
  intro fuel
  induction fuel with
  | zero => rfl
  | succ f ih =>
    have hstep : walk (f + 1) cycMapping ["a"] =
        (walk f cycMapping ["a"]).map (fun x => "a" :: x) := rfl
    rw [hstep, ih]
    rfl

/-- C3, counterexample: on a (malformed, non-tree) mapping in which node
`b` is declared twice among the root's children, the traversal pushes `b`
twice: the claim's "each node identifier at most once" fails. -/
theorem C3_counterexample :
    getOrderedNodeIds 10 { mapping := dagMapping } = some ["a", "b", "b"] ∧
    ¬ (["a", "b", "b"] : List String).Nodup := ⟨rfl, by decide⟩

/-- C3, amended: the traversal has no visited-set: on a tree it pushes each
id once, but on a mapping where a node is reachable through more than one
path it is pushed once per path (the concrete two-path mapping yields
`[a, b, b]` at every sufficient budget), and on a cyclic mapping the
recursion never terminates (every budget is exhausted).  Declared children
missing from the mapping are skipped: every pushed identifier is a key of
the mapping. -/
theorem C3_amended :
    (∀ fuel, getOrderedNodeIds fuel { mapping := cycMapping } = none) ∧
    (∀ fuel, 3 ≤ fuel → getOrderedNodeIds fuel { mapping := dagMapping } =
      some ["a", "b", "b"]) ∧
    (∀ (fuel : Nat) (m : List (String × Node)) (ids out : List String),
      walk fuel m ids = some out → ∀ id ∈ out, (List.lookup id m).isSome = true) := by
  refine ⟨?_, ?_, fun fuel m ids out h => walk_mem_keys fuel ids out h⟩
  · intro fuel
    exact walk_cyc_none fuel
  · intro fuel hfuel
    obtain ⟨d, rfl⟩ : ∃ d, fuel = d + 3 := ⟨fuel - 3, by omega⟩
    clear hfuel
    induction d with
    | zero => rfl
    | succ n ihn => exact walk_mono ihn

/-- C3, witness: the amended theorem instantiated at concrete budgets. -/
theorem C3_witness :
    getOrderedNodeIds 7 { mapping := cycMapping } = none ∧
    getOrderedNodeIds 5 { mapping := dagMapping } = some ["a", "b", "b"] ∧
    (List.lookup "b" dagMapping).isSome = true := by
  refine ⟨C3_amended.1 7, C3_amended.2.1 5 (by decide), ?_⟩
  exact C3_amended.2.2 5 dagMapping ["a"] ["a", "b", "b"] (C3_amended.2.1 5 (by decide)) "b"
    (by decide)

/-! ## Claim C6 -/

/-- C6: every node whose message has author role `assistant` and whose raw
text (code text, or parts joined by newline, trimmed) parses as a JSON
object (or array: `typeof` is `"object"`) with at least one key in the
banned set is rejected by `shouldIncludeMessage`, and therefore never
appears in the filtered message sequence from which the document is
assembled — it contributes nothing to the output. -/
theorem C6_banned_excluded :
    ∀ (nd : Node) (msg : Message) (j : Json),
      nd.message = some msg →
      msg.author.role = "assistant" →
      jsonParse (jsTrim (suspectTextRaw msg)) = some j →
      isObjLike j = true →
      (∃ key ∈ jsKeys j, key ∈ banned) →
      shouldIncludeMessage nd = false ∧
      ∀ (m : List (String × Node)) (ids : List String), nd ∉ filteredMessages m ids := by
  intro nd msg j hmsg hrole hparse hobj hex
  have hany : (jsKeys j).any (fun k => banned.contains k) = true := by
    obtain ⟨key, hk1, hk2⟩ := hex
    exact List.any_eq_true.mpr ⟨key, hk1, List.elem_iff.mpr hk2⟩
  have hexc : shouldIncludeMessage nd = false := by
    unfold shouldIncludeMessage
    rw [hmsg]
    dsimp only
    by_cases h1 : (msg.metadata.getD {}).is_visually_hidden_from_conversation
    · simp [h1]
    · by_cases h2 : (msg.metadata.getD {}).reasoning_status = some "reasoning_ended"
      · simp [h1, h2]
      · rw [if_neg (by simpa using h1), if_neg (by simpa using h2),
          if_neg (by rw [hrole]; simp), if_pos (by rw [hrole])]
        simp only [hparse]
        rw [hobj, hany]
        simp
  refine ⟨hexc, ?_⟩
  intro m ids hmem
  unfold filteredMessages at hmem
  rw [List.reduceOption_mem_iff] at hmem
  have hkeep := (List.mem_filter.1 hmem).2
  simp only [keepNode] at hkeep
  rw [hexc] at hkeep
  exact Bool.noConfusion hkeep

/-- C6, witness: the node whose raw text is the JSON object
`{"search_query": "x"}` is excluded. -/
theorem C6_witness :
    shouldIncludeMessage c6Node = false ∧
    c6Node ∉ filteredMessages [("n1", c6Node)] ["n1"] := by
  have h := C6_banned_excluded c6Node
    { author := { role := "assistant" }
      content := some
        { content_type := "text"
          parts := some [.strPart "\x7b\"search_query\": \"x\"\x7d"] } }
    (.obj [("search_query", .strV "x")]) rfl rfl (by rfl) rfl
    ⟨"search_query", by simp [jsKeys], by simp [banned]⟩
  exact ⟨h.1, h.2 [("n1", c6Node)] ["n1"]⟩

/-! ## Claim C5 -/

theorem findIdEnd_complete :
    ∀ (id : List Char) (s3 : Char) (rest : List Char),
      id.all (fun c => !isPUA c && !isJsLineTerm c) = true → isPUA s3 = true →
      findIdEnd (id ++ s3 :: rest) = some (id, rest) := by
  intro id
  induction id with
  | nil =>
    intro s3 rest _ h3
    simp [findIdEnd, h3]
  | cons c cs ih =>
    intro s3 rest hall h3
    simp only [List.all_cons, Bool.and_eq_true, Bool.not_eq_true'] at hall
    obtain ⟨⟨hp, hl⟩, hrest⟩ := hall
    rw [List.cons_append]
    rw [show findIdEnd (c :: (cs ++ s3 :: rest)) =
      (if isPUA c then some ([], cs ++ s3 :: rest)
       else if isJsLineTerm c then none
       else match findIdEnd (cs ++ s3 :: rest) with
            | some (id0, r) => some (c :: id0, r)
            | none => none) from rfl]
    rw [if_neg (by simp [hp]), if_neg (by simp [hl])]
    rw [ih s3 rest (by simpa [List.all_eq_true] using hrest) h3]

theorem replaceCiteL_append_plain (map : List (String × String)) :
    ∀ (t rest : List Char), t.all (fun c => !isPUA c) = true →
      replaceCiteL map (t ++ rest) = t ++ replaceCiteL map rest := by
  intro t
  induction t with
  | nil => intro rest _; rfl
  | cons c cs ih =>
    intro rest h
    simp only [List.all_cons, Bool.and_eq_true, Bool.not_eq_true'] at h
    rw [List.cons_append, replaceCiteL_step_nonpua map h.1,
      ih rest (by simpa [List.all_eq_true] using h.2)]
    simp

theorem replaceCiteL_token_step (map : List (String × String)) (s1 s2 s3 : Char)
    (id rest : List Char) (h1 : isPUA s1 = true) (h2 : isPUA s2 = true) (h3 : isPUA s3 = true)
    (hid : id.all (fun c => !isPUA c && !isJsLineTerm c) = true) :
    replaceCiteL map (mkCiteToken s1 s2 s3 id ++ rest) =
      chars ((List.lookup (str id) map).getD "") ++ replaceCiteL map rest := by
  have hshape : mkCiteToken s1 s2 s3 id ++ rest =
      s1 :: ('c' :: 'i' :: 't' :: 'e' :: s2 :: (id ++ s3 :: rest)) := by
    simp [mkCiteToken]
  rw [hshape]
  apply replaceCiteL_step_token map h1
  rw [show citeTokenAt ('c' :: 'i' :: 't' :: 'e' :: s2 :: (id ++ s3 :: rest)) =
    (if isPUA s2 = true then findIdEnd (id ++ s3 :: rest) else none) from rfl]
  rw [if_pos h2, findIdEnd_complete id s3 rest hid h3]

/-- C5: over any body decomposed into sentinel-free plain segments and
well-formed citation placeholder tokens, the global replacement keeps the
plain text and turns each token into `citationMap[id] || ""`: the exact
stored link when the identifier is a key of the map, and the empty string
(the token vanishes) when it is not. -/
theorem C5_citation_tokens :
    (∀ (map : List (String × String)) (segs : List CiteSeg),
      segs.all citeSegWf = true →
      replaceCiteL map ((segs.map citeSegChars).flatten) =
        (segs.map (citeSegSubst map)).flatten) ∧
    (∀ (map : List (String × String)) (s1 s2 s3 : Char) (id : List Char) (link : String)
      (rest : List Char),
      isPUA s1 = true → isPUA s2 = true → isPUA s3 = true →
      id.all (fun c => !isPUA c && !isJsLineTerm c) = true →
      List.lookup (str id) map = some link →
      replaceCiteL map (mkCiteToken s1 s2 s3 id ++ rest) =
        chars link ++ replaceCiteL map rest) ∧
    (∀ (map : List (String × String)) (s1 s2 s3 : Char) (id : List Char) (rest : List Char),
      isPUA s1 = true → isPUA s2 = true → isPUA s3 = true →
      id.all (fun c => !isPUA c && !isJsLineTerm c) = true →
      List.lookup (str id) map = none →
      replaceCiteL map (mkCiteToken s1 s2 s3 id ++ rest) = replaceCiteL map rest) := by
  refine ⟨?_, ?_, ?_⟩
  · intro map segs
    induction segs with
    | nil =>
      intro _
      simp only [List.map_nil, List.flatten_nil]
      exact replaceCiteL_nil map
    | cons seg rest ih =>
      intro h
      simp only [List.all_cons, Bool.and_eq_true] at h
      simp only [List.map_cons, List.flatten_cons]
      cases seg with
      | plain t =>
        rw [show citeSegChars (.plain t) = t from rfl,
          replaceCiteL_append_plain map t _ h.1, ih h.2]
        rfl
      | token s1 s2 s3 id =>
        have hwf := h.1
        simp only [citeSegWf, Bool.and_eq_true] at hwf
        rw [show citeSegChars (.token s1 s2 s3 id) = mkCiteToken s1 s2 s3 id from rfl,
          replaceCiteL_token_step map s1 s2 s3 id _ hwf.1.1.1 hwf.1.1.2 hwf.1.2 hwf.2,
          ih h.2]
        rfl
  · intro map s1 s2 s3 id link rest h1 h2 h3 hid hlook
    rw [replaceCiteL_token_step map s1 s2 s3 id rest h1 h2 h3 hid, hlook]
    rfl
  · intro map s1 s2 s3 id rest h1 h2 h3 hid hlook
    rw [replaceCiteL_token_step map s1 s2 s3 id rest h1 h2 h3 hid, hlook]
    rfl

/-- C5, witness: a body with one resolvable and one unresolvable token; the
first token becomes the stored link, the second vanishes. -/
theorem C5_witness :
    replaceCiteL [("7", "[T](https://e)")] ((c5Segs.map citeSegChars).flatten) =
      (c5Segs.map (citeSegSubst [("7", "[T](https://e)")])).flatten ∧
    (c5Segs.map (citeSegSubst [("7", "[T](https://e)")])).flatten =
      chars "A [T](https://e) B " := by
  refine ⟨C5_citation_tokens.1 _ c5Segs (by decide), by decide⟩

/-! ## Claim C1 -/

theorem assembleIdxGo_nil (b : Bool) :
    assembleIdxGo b [] = .ok (if b then ["\n"] else []) := rfl

theorem assembleIdxGo_reason {n : Node} {msg : Message} (hmsg : n.message = some msg)
    (hreason : (msg.metadata.getD {}).reasoning_status = some "is_reasoning")
    {s : String} (hrender : nodeToMarkdown n true = .ok s)
    (inCallout : Bool) (rest : List Node) {parts : List String}
    (hrest : assembleIdxGo true rest = .ok parts) :
    assembleIdxGo inCallout (n :: rest) = .ok
      ((if inCallout then ["> \n"] else ["> [!info]- Reasoning\n"]) ++
        reasoningPushesIdx s ++ parts) := by
  unfold assembleIdxGo
  rw [hmsg]
  dsimp only
  rw [if_pos hreason, hrender, hrest]
  rfl

theorem assembleIdxGo_normal {n : Node} {msg : Message} (hmsg : n.message = some msg)
    (hnorm : ¬(msg.metadata.getD {}).reasoning_status = some "is_reasoning")
    {s : String} (hrender : nodeToMarkdown n false = .ok s)
    (inCallout : Bool) (rest : List Node) {parts : List String}
    (hrest : assembleIdxGo inCallout rest = .ok parts) :
    assembleIdxGo inCallout (n :: rest) = .ok (s :: parts) := by
  unfold assembleIdxGo
  rw [hmsg]
  dsimp only
  rw [if_neg hnorm, hrender, hrest]
  rfl

theorem assembleCliGo_nil (b : Bool) :
    assembleCliGo b [] = .ok (if b then ["\n"] else []) := rfl

theorem assembleCliGo_reason {n : Node} {msg : Message} (hmsg : n.message = some msg)
    (hreason : (msg.metadata.getD {}).reasoning_status = some "is_reasoning")
    {s : String} (hrender : nodeToMarkdownCli n true = .ok s)
    (inCallout : Bool) (rest : List Node) {parts : List String}
    (hrest : assembleCliGo true rest = .ok parts) :
    assembleCliGo inCallout (n :: rest) = .ok
      ((if inCallout then ["> \n"] else ["> [!info]- Reasoning\n"]) ++
        reasoningPushesCli s ++ parts) := by
  unfold assembleCliGo
  rw [hmsg]
  dsimp only
  rw [if_pos hreason, hrender, hrest]
  rfl

theorem assembleCliGo_normal {n : Node} {msg : Message} (hmsg : n.message = some msg)
    (hnorm : ¬(msg.metadata.getD {}).reasoning_status = some "is_reasoning")
    {s : String} (hrender : nodeToMarkdownCli n false = .ok s)
    (inCallout : Bool) (rest : List Node) {parts : List String}
    (hrest : assembleCliGo false rest = .ok parts) :
    assembleCliGo inCallout (n :: rest) = .ok
      ((if inCallout then ["\n"] else []) ++ [s] ++ parts) := by
  unfold assembleCliGo
  rw [hmsg]
  dsimp only
  rw [if_neg hnorm, hrender, hrest]
  rfl

theorem c1_render_rNode : nodeToMarkdown rNode true = .ok "think" := by
  have h := nodeToMarkdown_plain rNode
    { author := { role := "assistant" }
      content := some { content_type := "text", parts := some [.strPart "think"] }
      metadata := some { reasoning_status := some "is_reasoning" } }
    { content_type := "text", parts := some [.strPart "think"] } "think"
    rfl rfl rfl (by decide) (by decide) rfl rfl true
  rw [h]
  rfl

theorem c1_render_nNode : nodeToMarkdown nNode false = .ok "## assistant\n\nhello\n\n" := by
  have h := nodeToMarkdown_plain nNode
    { author := { role := "assistant" }
      content := some { content_type := "text", parts := some [.strPart "hello"] } }
    { content_type := "text", parts := some [.strPart "hello"] } "hello"
    rfl rfl rfl (by decide) (by decide) rfl rfl false
  rw [h]
  rfl

/-- C1, counterexample: in the src/index.js assembler, a normal message
arriving while the callout is open is rendered with *no* preceding closing
blank line and with the state left `InCallout`; the single closing blank
line is appended only after the whole loop, i.e. *after* the normal
message's rendering — not before it, as the claim states. -/
theorem C1_counterexample :
    assembleIdx [rNode, nNode] = .ok
      ["> [!info]- Reasoning\n", ">> [!example]- Reasoning\n", ">> think\n",
        "## assistant\n\nhello\n\n", "\n"] ∧
    (["> [!info]- Reasoning\n", ">> [!example]- Reasoning\n", ">> think\n",
        "## assistant\n\nhello\n\n", "\n"] : List String) ≠
      ["> [!info]- Reasoning\n", ">> [!example]- Reasoning\n", ">> think\n", "\n",
        "## assistant\n\nhello\n\n"] := by
  refine ⟨?_, by decide⟩
  have h1 : assembleIdxGo true [nNode] = .ok ["## assistant\n\nhello\n\n", "\n"] :=
    assembleIdxGo_normal rfl (by decide) c1_render_nNode true [] rfl
  have h2 := assembleIdxGo_reason (n := rNode) rfl rfl c1_render_rNode false [nNode] h1
  unfold assembleIdx
  rw [h2]
  rfl

/-- C1, amended: the two assembler variants genuinely differ.  For a run of
three reasoning messages followed by a normal one, both produce exactly one
outer callout opening, three nested callout blocks and exactly two sibling
separators; the src/cli.js variant then emits the closing blank line and
returns to `Idle` *before* rendering the normal message, whereas the
src/index.js variant renders the normal message while still `InCallout` and
emits the single closing blank line only at end of stream, after it. -/
theorem C1_amended :
    ∀ (m1 m2 m3 n : Node) (msg1 msg2 msg3 msgn : Message)
      (u1 u2 u3 v s1 s2 s3 t : String),
      m1.message = some msg1 → m2.message = some msg2 → m3.message = some msg3 →
      n.message = some msgn →
      (msg1.metadata.getD {}).reasoning_status = some "is_reasoning" →
      (msg2.metadata.getD {}).reasoning_status = some "is_reasoning" →
      (msg3.metadata.getD {}).reasoning_status = some "is_reasoning" →
      ¬(msgn.metadata.getD {}).reasoning_status = some "is_reasoning" →
      nodeToMarkdown m1 true = .ok u1 → nodeToMarkdown m2 true = .ok u2 →
      nodeToMarkdown m3 true = .ok u3 → nodeToMarkdown n false = .ok v →
      nodeToMarkdownCli m1 true = .ok s1 → nodeToMarkdownCli m2 true = .ok s2 →
      nodeToMarkdownCli m3 true = .ok s3 → nodeToMarkdownCli n false = .ok t →
      assembleIdx [m1, m2, m3, n] = .ok
        (["> [!info]- Reasoning\n"] ++ reasoningPushesIdx u1 ++
          ["> \n"] ++ reasoningPushesIdx u2 ++ ["> \n"] ++ reasoningPushesIdx u3 ++
          [v] ++ ["\n"]) ∧
      assembleCli [m1, m2, m3, n] = .ok
        (["> [!info]- Reasoning\n"] ++ reasoningPushesCli s1 ++
          ["> \n"] ++ reasoningPushesCli s2 ++ ["> \n"] ++ reasoningPushesCli s3 ++
          ["\n"] ++ [t]) := by
  intro m1 m2 m3 n msg1 msg2 msg3 msgn u1 u2 u3 v s1 s2 s3 t
  intro hm1 hm2 hm3 hmn hr1 hr2 hr3 hrn hu1 hu2 hu3 hv hs1 hs2 hs3 ht
  constructor
  · have h0 : assembleIdxGo true [n] = .ok [v, "\n"] :=
      assembleIdxGo_normal hmn hrn hv true [] rfl
    have h1 := assembleIdxGo_reason hm3 hr3 hu3 true [n] h0
    have h2 := assembleIdxGo_reason hm2 hr2 hu2 true [m3, n] h1
    have h3 := assembleIdxGo_reason hm1 hr1 hu1 false [m2, m3, n] h2
    unfold assembleIdx
    rw [h3]
    simp [List.append_assoc]
  · have h0 : assembleCliGo true [n] = .ok (["\n"] ++ [t] ++ []) :=
      assembleCliGo_normal hmn hrn ht true [] rfl
    have h1 := assembleCliGo_reason hm3 hr3 hs3 true [n] h0
    have h2 := assembleCliGo_reason hm2 hr2 hs2 true [m3, n] h1
    have h3 := assembleCliGo_reason hm1 hr1 hs1 false [m2, m3, n] h2
    unfold assembleCli
    rw [h3]
    simp [List.append_assoc]

theorem c1_render_rNode2 : nodeToMarkdown rNode2 true = .ok "more" := by
  have h := nodeToMarkdown_plain rNode2
    { author := { role := "assistant" }
      content := some { content_type := "text", parts := some [.strPart "more"] }
      metadata := some { reasoning_status := some "is_reasoning" } }
    { content_type := "text", parts := some [.strPart "more"] } "more"
    rfl rfl rfl (by decide) (by decide) rfl rfl true
  rw [h]
  rfl

theorem c1_render_rNode3 : nodeToMarkdown rNode3 true = .ok "done" := by
  have h := nodeToMarkdown_plain rNode3
    { author := { role := "assistant" }
      content := some { content_type := "text", parts := some [.strPart "done"] }
      metadata := some { reasoning_status := some "is_reasoning" } }
    { content_type := "text", parts := some [.strPart "done"] } "done"
    rfl rfl rfl (by decide) (by decide) rfl rfl true
  rw [h]
  rfl

theorem c1_render_cli_rNode :
    nodeToMarkdownCli rNode true = .ok "> [!info]- Reasoning\n> think" := by
  have h := nodeToMarkdownCli_plain rNode
    { author := { role := "assistant" }
      content := some { content_type := "text", parts := some [.strPart "think"] }
      metadata := some { reasoning_status := some "is_reasoning" } }
    { content_type := "text", parts := some [.strPart "think"] } "think"
    rfl rfl rfl (by decide) (by decide) rfl rfl true
  rw [h]
  rfl

theorem c1_render_cli_rNode2 :
    nodeToMarkdownCli rNode2 true = .ok "> [!info]- Reasoning\n> more" := by
  have h := nodeToMarkdownCli_plain rNode2
    { author := { role := "assistant" }
      content := some { content_type := "text", parts := some [.strPart "more"] }
      metadata := some { reasoning_status := some "is_reasoning" } }
    { content_type := "text", parts := some [.strPart "more"] } "more"
    rfl rfl rfl (by decide) (by decide) rfl rfl true
  rw [h]
  rfl

theorem c1_render_cli_rNode3 :
    nodeToMarkdownCli rNode3 true = .ok "> [!info]- Reasoning\n> done" := by
  have h := nodeToMarkdownCli_plain rNode3
    { author := { role := "assistant" }
      content := some { content_type := "text", parts := some [.strPart "done"] }
      metadata := some { reasoning_status := some "is_reasoning" } }
    { content_type := "text", parts := some [.strPart "done"] } "done"
    rfl rfl rfl (by decide) (by decide) rfl rfl true
  rw [h]
  rfl

theorem c1_render_cli_nNode :
    nodeToMarkdownCli nNode false = .ok "## assistant\n\nhello\n\n" := by
  have h := nodeToMarkdownCli_plain nNode
    { author := { role := "assistant" }
      content := some { content_type := "text", parts := some [.strPart "hello"] } }
    { content_type := "text", parts := some [.strPart "hello"] } "hello"
    rfl rfl rfl (by decide) (by decide) rfl rfl false
  rw [h]
  rfl

/-- C1, witness: the amended theorem at three concrete reasoning messages
followed by a normal one, with both assemblers' outputs fully evaluated:
one outer opening, three nested blocks, two separators; the closing blank
line precedes the normal message only in the cli variant. -/
theorem C1_witness :
    assembleIdx [rNode, rNode2, rNode3, nNode] = .ok
      ["> [!info]- Reasoning\n", ">> [!example]- Reasoning\n", ">> think\n",
       "> \n", ">> [!example]- Reasoning\n", ">> more\n",
       "> \n", ">> [!example]- Reasoning\n", ">> done\n",
       "## assistant\n\nhello\n\n", "\n"] ∧
    assembleCli [rNode, rNode2, rNode3, nNode] = .ok
      ["> [!info]- Reasoning\n", ">> [!example]- Reasoning\n", ">> think\n",
       "> \n", ">> [!example]- Reasoning\n", ">> more\n",
       "> \n", ">> [!example]- Reasoning\n", ">> done\n",
       "\n", "## assistant\n\nhello\n\n"] := by
  have h := C1_amended rNode rNode2 rNode3 nNode _ _ _ _
    "think" "more" "done" "## assistant\n\nhello\n\n"
    "> [!info]- Reasoning\n> think" "> [!info]- Reasoning\n> more"
    "> [!info]- Reasoning\n> done" "## assistant\n\nhello\n\n"
    rfl rfl rfl rfl rfl rfl rfl (by decide)
    c1_render_rNode c1_render_rNode2 c1_render_rNode3 c1_render_nNode
    c1_render_cli_rNode c1_render_cli_rNode2 c1_render_cli_rNode3 c1_render_cli_nNode
  refine ⟨?_, ?_⟩
  · rw [h.1]
    rfl
  · rw [h.2]
    rfl

/-! ## Claim C9 -/

theorem takeWhile_all {p : Char → Bool} :
    ∀ x : List Char, x.all p = true → x.takeWhile p = x := by
  intro x
  induction x with
  | nil => intro _; rfl
  | cons c cs ih =>
    intro h
    simp only [List.all_cons, Bool.and_eq_true] at h
    rw [List.takeWhile_cons, if_pos h.1, ih h.2]

theorem takeWhile_stop {x b : List Char} (hx : x.all (fun c => !isJsWs c) = true) :
    (x ++ ' ' :: b).takeWhile (fun c => !isJsWs c) = x := by
  induction x with
  | nil =>
    rw [List.nil_append, List.takeWhile_cons]
    rw [if_neg (by decide)]
  | cons c cs ih =>
    simp only [List.all_cons, Bool.and_eq_true] at hx
    rw [List.cons_append, List.takeWhile_cons, if_pos hx.1, ih hx.2]

theorem startsWith_append_ws {pat : List Char} (hp : pat.all (fun c => !isJsWs c) = true) :
    ∀ (a b : List Char), startsWithL pat (a ++ ' ' :: b) = startsWithL pat a := by
  induction pat with
  | nil => intro a b; cases a <;> rfl
  | cons p ps ih =>
    intro a b
    simp only [List.all_cons, Bool.and_eq_true] at hp
    cases a with
    | nil =>
      rw [List.nil_append]
      show (decide (p = ' ') && _) = false
      have : p ≠ ' ' := by
        intro h
        rw [h] at hp
        exact absurd hp.1 (by decide)
      simp [this]
    | cons x a' =>
      rw [List.cons_append]
      show (decide (p = x) && startsWithL ps (a' ++ ' ' :: b)) = (decide (p = x) && startsWithL ps a')
      rw [ih hp.2 a' b]

theorem noWsToken_append_right {x y : List Char} (h : noWsToken (x ++ y) = true) :
    y.all (fun c => !isJsWs c) = true := by
  unfold noWsToken at h
  rw [List.all_append, Bool.and_eq_true] at h
  exact h.2

theorem tryUrl_rest_nil {a u r : List Char} (ha : noWsToken a = true)
    (h : tryUrl a = some (u, r)) : r = [] := by
  simp only [tryUrl] at h
  split at h
  next hs =>
    obtain ⟨rest, rfl⟩ := (startsWithL_iff _ _).1 hs
    have hdrop : (chars "https://" ++ rest).drop 8 = rest := rfl
    rw [hdrop] at h
    have hrest : rest.all (fun c => !isJsWs c) = true := noWsToken_append_right ha
    rw [takeWhile_all rest hrest] at h
    split at h
    · exact Option.noConfusion h
    · have hr2 : List.drop rest.length rest = r :=
        congrArg Prod.snd (Option.some.inj h)
      rw [← hr2, List.drop_length]
  next =>
    split at h
    next hs =>
      obtain ⟨rest, rfl⟩ := (startsWithL_iff _ _).1 hs
      have hdrop : (chars "http://" ++ rest).drop 7 = rest := rfl
      rw [hdrop] at h
      have hrest : rest.all (fun c => !isJsWs c) = true := noWsToken_append_right ha
      rw [takeWhile_all rest hrest] at h
      split at h
      · exact Option.noConfusion h
      · have hr2 : List.drop rest.length rest = r :=
          congrArg Prod.snd (Option.some.inj h)
        rw [← hr2, List.drop_length]
    next => exact Option.noConfusion h

theorem tryUrl_append_ws {a b : List Char} (ha : noWsToken a = true) :
    tryUrl (a ++ ' ' :: b) = (tryUrl a).map (fun p => (p.1, p.2 ++ ' ' :: b)) := by
  have hs8 : (chars "https://").all (fun c => !isJsWs c) = true := by decide
  have hs7 : (chars "http://").all (fun c => !isJsWs c) = true := by decide
  simp only [tryUrl]
  rw [startsWith_append_ws hs8 a b, startsWith_append_ws hs7 a b]
  by_cases h8 : startsWithL (chars "https://") a = true
  · rw [if_pos h8, if_pos h8]
    obtain ⟨rest, rfl⟩ := (startsWithL_iff _ _).1 h8
    have hrest : rest.all (fun c => !isJsWs c) = true := noWsToken_append_right ha
    have hdropL : ((chars "https://" ++ rest) ++ ' ' :: b).drop 8 = rest ++ ' ' :: b := by
      rw [List.append_assoc]
      rfl
    have hdropR : (chars "https://" ++ rest).drop 8 = rest := rfl
    rw [hdropL, hdropR, takeWhile_stop hrest, takeWhile_all rest hrest]
    by_cases hr : rest = []
    · subst hr
      rw [if_pos rfl, if_pos rfl]
      rfl
    · rw [if_neg hr, if_neg hr]
      rw [show (rest ++ ' ' :: b).drop rest.length = ' ' :: b from List.drop_left rest _]
      rw [List.drop_length]
      rfl
  · rw [if_neg h8, if_neg h8]
    by_cases h7 : startsWithL (chars "http://") a = true
    · rw [if_pos h7, if_pos h7]
      obtain ⟨rest, rfl⟩ := (startsWithL_iff _ _).1 h7
      have hrest : rest.all (fun c => !isJsWs c) = true := noWsToken_append_right ha
      have hdropL : ((chars "http://" ++ rest) ++ ' ' :: b).drop 7 = rest ++ ' ' :: b := by
        rw [List.append_assoc]
        rfl
      have hdropR : (chars "http://" ++ rest).drop 7 = rest := rfl
      rw [hdropL, hdropR, takeWhile_stop hrest, takeWhile_all rest hrest]
      by_cases hr : rest = []
      · subst hr
        rw [if_pos rfl, if_pos rfl]
        rfl
      · rw [if_neg hr, if_neg hr]
        rw [show (rest ++ ' ' :: b).drop rest.length = ' ' :: b from List.drop_left rest _]
        rw [List.drop_length]
        rfl
    · rw [if_neg h7, if_neg h7]
      rfl

theorem wrapLinksL_nil_eq : wrapLinksL [] = [] := by
  rw [wrapLinksL]

theorem wrapLinksL_space (b : List Char) : wrapLinksL (' ' :: b) = ' ' :: wrapLinksL b :=
  wrapLinksL_step_none rfl

theorem wrapLinksL_append_ws :
    ∀ {t rest : List Char}, noWsToken t = true →
      wrapLinksL (t ++ ' ' :: rest) = wrapLinksL t ++ ' ' :: wrapLinksL rest := by
  intro t
  induction t with
  | nil =>
    intro rest _
    rw [List.nil_append, wrapLinksL_space, wrapLinksL_nil_eq]
    rfl
  | cons c t' ih =>
    intro rest ht
    have ht' : noWsToken t' = true := by
      simp only [noWsToken, List.all_cons, Bool.and_eq_true] at ht
      exact ht.2
    cases htu : tryUrl (c :: t') with
    | none =>
      have hfull : tryUrl ((c :: t') ++ ' ' :: rest) = none := by
        rw [tryUrl_append_ws ht, htu]
        rfl
      rw [List.cons_append] at hfull ⊢
      rw [wrapLinksL_step_none hfull, wrapLinksL_step_none htu]
      rw [show t' ++ ' ' :: rest = t' ++ ' ' :: rest from rfl]
      rw [ih ht']
      rfl
    | some p =>
      obtain ⟨u, r⟩ := p
      have hr : r = [] := tryUrl_rest_nil ht htu
      subst hr
      have hfull : tryUrl ((c :: t') ++ ' ' :: rest) = some (u, ' ' :: rest) := by
        rw [tryUrl_append_ws ht, htu]
        rfl
      rw [List.cons_append] at hfull
      rw [List.cons_append, wrapLinksL_step_some hfull, wrapLinksL_step_some htu,
        wrapLinksL_space, wrapLinksL_nil_eq]
      simp

/-- C9, distribution over a space-separated token sequence: the scanner
acts independently on each maximal whitespace-delimited token. -/
theorem wrapLinks_tokens :
    ∀ ts : List (List Char), ts.all noWsToken = true →
      wrapLinksL (List.intercalate [' '] ts) = List.intercalate [' '] (ts.map wrapLinksL) := by
  intro ts
  induction ts with
  | nil => intro _; exact wrapLinksL_nil_eq
  | cons t ts' ih =>
    intro h
    simp only [List.all_cons, Bool.and_eq_true] at h
    cases ts' with
    | nil =>
      simp [List.intercalate, List.intersperse]
    | cons t2 ts'' =>
      have hstep : List.intercalate [' '] (t :: t2 :: ts'') =
          t ++ ' ' :: List.intercalate [' '] (t2 :: ts'') := by
        simp [List.intercalate, List.intersperse]
      have hstep2 : List.intercalate [' '] (wrapLinksL t :: wrapLinksL t2 :: ts''.map wrapLinksL) =
          wrapLinksL t ++ ' ' :: List.intercalate [' '] (wrapLinksL t2 :: ts''.map wrapLinksL) := by
        simp [List.intercalate, List.intersperse]
      rw [hstep, wrapLinksL_append_ws h.1, ih h.2]
      simp only [List.map_cons]
      rw [hstep2]

theorem wrapLinksL_scheme_token :
    ∀ (t rest : List Char), noWsToken t = true →
      (t = chars "http://" ++ rest ∨ t = chars "https://" ++ rest) → rest ≠ [] →
      wrapLinksL t = '[' :: t ++ [']', '('] ++ t ++ [')'] := by
  intro t rest ht hsch hr
  have hrest : rest.all (fun c => !isJsWs c) = true := by
    rcases hsch with rfl | rfl
    · exact noWsToken_append_right ht
    · exact noWsToken_append_right ht
  have htu : tryUrl t = some (t, []) := by
    rcases hsch with rfl | rfl
    · have hns : startsWithL (chars "https://") (chars "http://" ++ rest) = false := by
        cases rest <;> rfl
      have hs : startsWithL (chars "http://") (chars "http://" ++ rest) = true :=
        (startsWithL_iff _ _).2 ⟨rest, rfl⟩
      simp only [tryUrl, hns, Bool.false_eq_true, if_false, hs, if_true]
      rw [show (chars "http://" ++ rest).drop 7 = rest from rfl,
        takeWhile_all rest hrest, if_neg hr, List.drop_length]
    · have hs : startsWithL (chars "https://") (chars "https://" ++ rest) = true :=
        (startsWithL_iff _ _).2 ⟨rest, rfl⟩
      simp only [tryUrl, hs, if_true]
      rw [show (chars "https://" ++ rest).drop 8 = rest from rfl,
        takeWhile_all rest hrest, if_neg hr, List.drop_length]
  obtain ⟨c, t', rfl⟩ : ∃ c t', t = c :: t' := by
    rcases hsch with rfl | rfl <;> exact ⟨_, _, rfl⟩
  rw [wrapLinksL_step_some htu, wrapLinksL_nil_eq]
  simp

theorem wrapLinksL_passThrough :
    ∀ (pre rest : List Char), passThrough pre rest = true →
      wrapLinksL (pre ++ rest) = pre ++ wrapLinksL rest := by
  intro pre
  induction pre with
  | nil => intro rest _; rfl
  | cons c pr ih =>
    intro rest h
    simp only [passThrough, Bool.and_eq_true] at h
    have hnone : tryUrl (c :: (pr ++ rest)) = none := by
      cases htu : tryUrl (c :: (pr ++ rest)) with
      | none => rfl
      | some v => rw [htu] at h; simp at h
    rw [List.cons_append, wrapLinksL_step_none hnone, ih rest h.2]
    rfl

/-- C9, counterexample: the bare token `http://` begins with the scheme and
is a maximal whitespace-delimited token, yet the scanner leaves it
unchanged (the regex `https?:\/\/\S+` demands at least one further
non-whitespace character), so "every token beginning with http:// or
https:// is rewritten to [token](token)" fails. -/
theorem C9_counterexample :
    wrapLinksInMarkdown "http://" = "http://" ∧
    startsWithL (chars "http://") (chars "http://") = true ∧
    ("http://" : String) ≠ "[http://](http://)" := by
  refine ⟨?_, by decide, by decide⟩
  unfold wrapLinksInMarkdown
  rw [wrapLinksL_of_no_url _ (by decide)]
  rfl

/-- C9, amended: every maximal whitespace-delimited token that begins with
`http://` or `https://` *and has at least one further non-whitespace
character* is rewritten to `[token](token)` (a bare scheme token is left
alone); the scanner distributes over whitespace-separated tokens; and it
rewrites the URL portion of an already-formed Markdown link in place, the
trailing `)` included in both the generated label and target (the pass
runs on the body after citation placeholders have been resolved, per the
order in `nodeToMarkdownInner`). -/
theorem C9_amended :
    (∀ ts : List (List Char), ts.all noWsToken = true →
      wrapLinksL (List.intercalate [' '] ts) = List.intercalate [' '] (ts.map wrapLinksL)) ∧
    (∀ (t rest : List Char), noWsToken t = true →
      (t = chars "http://" ++ rest ∨ t = chars "https://" ++ rest) → rest ≠ [] →
      wrapLinksL t = '[' :: t ++ [']', '('] ++ t ++ [')']) ∧
    (∀ (label u : List Char),
      passThrough ('[' :: label ++ [']', '(']) (chars "https://" ++ u ++ [')']) = true →
      u.all (fun c => !isJsWs c) = true →
      wrapLinksL (('[' :: label ++ [']', '(']) ++ (chars "https://" ++ u ++ [')'])) =
        ('[' :: label ++ [']', '(']) ++
          ('[' :: (chars "https://" ++ u ++ [')']) ++ [']', '('] ++
            (chars "https://" ++ u ++ [')']) ++ [')'])) := by
  refine ⟨wrapLinks_tokens, wrapLinksL_scheme_token, ?_⟩
  intro label u hpass hu
  rw [wrapLinksL_passThrough _ _ hpass]
  have hall : (u ++ [')']).all (fun c => !isJsWs c) = true := by
    rw [List.all_append, hu]
    decide
  have htu : tryUrl (chars "https://" ++ u ++ [')']) =
      some (chars "https://" ++ (u ++ [')']), []) := by
    have hs : startsWithL (chars "https://") (chars "https://" ++ (u ++ [')'])) = true :=
      (startsWithL_iff _ _).2 ⟨u ++ [')'], rfl⟩
    rw [List.append_assoc]
    simp only [tryUrl, hs, if_true]
    rw [show (chars "https://" ++ (u ++ [')'])).drop 8 = u ++ [')'] from rfl,
      takeWhile_all _ hall, if_neg (by simp), List.drop_length]
  rw [show chars "https://" ++ u ++ [')'] =
    'h' :: ('t' :: 't' :: 'p' :: 's' :: ':' :: '/' :: '/' :: (u ++ [')'])) from by
      rw [List.append_assoc]; rfl]
  rw [wrapLinksL_step_some (by
    rw [← (show chars "https://" ++ u ++ [')'] =
      'h' :: ('t' :: 't' :: 'p' :: 's' :: ':' :: '/' :: '/' :: (u ++ [')'])) from by
        rw [List.append_assoc]; rfl)]
    exact htu), wrapLinksL_nil_eq]
  rw [show chars "https://" = ['h', 't', 't', 'p', 's', ':', '/', '/'] from rfl]
  simp

/-- C9, witness: the amended theorem instantiated with concrete tokens and
a concrete already-formed link. -/
theorem C9_witness :
    wrapLinksL (List.intercalate [' ']
        [chars "see", chars "https://a.io/x", chars "end"]) =
      List.intercalate [' ']
        ([chars "see", chars "https://a.io/x", chars "end"].map wrapLinksL) ∧
    wrapLinksL (chars "https://a.io/x") =
      '[' :: chars "https://a.io/x" ++ [']', '('] ++ chars "https://a.io/x" ++ [')'] ∧
    wrapLinksL (('[' :: chars "T" ++ [']', '(']) ++ (chars "https://" ++ chars "e" ++ [')'])) =
      ('[' :: chars "T" ++ [']', '(']) ++
        ('[' :: (chars "https://" ++ chars "e" ++ [')']) ++ [']', '('] ++
          (chars "https://" ++ chars "e" ++ [')']) ++ [')']) := by
  refine ⟨C9_amended.1 _ (by decide), ?_, ?_⟩
  · exact C9_amended.2.1 (chars "https://a.io/x") (chars "a.io/x") (by decide)
      (Or.inr (by decide)) (by decide)
  · exact C9_amended.2.2 (chars "T") (chars "e") (by decide) (by decide)

/-! ## Claim C10 -/

theorem lookup_objSet (m : List (String × String)) (k v k' : String) :
    List.lookup k' (objSet m k v) = if k' = k then some v else List.lookup k' m := by
  induction m with
  | nil =>
    by_cases hk : k' = k
    · subst hk; simp [objSet, List.lookup]
    · have hbeq : (k' == k) = false := beq_eq_false_iff_ne.mpr hk
      simp [objSet, List.lookup, hk, hbeq]
  | cons p rest ih =>
    obtain ⟨k0, v0⟩ := p
    by_cases h0 : k0 = k
    · subst h0
      by_cases hk : k' = k0
      · subst hk; simp [objSet, List.lookup]
      · have hbeq : (k' == k0) = false := beq_eq_false_iff_ne.mpr hk
        simp [objSet, List.lookup, hk, hbeq]
    · by_cases hk : k' = k0
      · have hkk : k' ≠ k := hk ▸ h0
        have hbeq : (k' == k0) = true := beq_iff_eq.mpr hk
        simp [objSet, List.lookup, h0, hbeq, hkk]
      · have hbeq : (k' == k0) = false := beq_eq_false_iff_ne.mpr hk
        simp [objSet, List.lookup, h0, hbeq, ih]

/-- C10: for every citations list, looking up any key in the built map
yields the link of the last list element that is eligible (has a truthy
identifier, first of ref_id/source_id/id, and a truthy url) and whose
identifier equals the key; ineligible citations are simply skipped. -/
theorem C10_citation_map :
    ∀ (cs : List Citation) (k : String),
      List.lookup k (buildCitationMap { citations := some cs }) =
        ((cs.filter fun c => citationEligible c && ((citationKey c).getD "" == k)).getLast?).map
          citationLink := by
  intro cs
  induction cs using List.reverseRecOn with
  | nil => intro k; rfl
  | append_singleton l a ih =>
    intro k
    have hfold : buildCitationMap { citations := some (l ++ [a]) } =
        (if citationEligible a then
          objSet (buildCitationMap { citations := some l }) ((citationKey a).getD "")
            (citationLink a)
         else buildCitationMap { citations := some l }) := by
      simp [buildCitationMap, List.foldl_append]
    rw [hfold, List.filter_append]
    by_cases he : citationEligible a
    · rw [if_pos he]
      rw [lookup_objSet]
      by_cases hk : (citationKey a).getD "" = k
      · rw [if_pos hk.symm]
        have : List.filter (fun c => citationEligible c && ((citationKey c).getD "" == k)) [a] =
            [a] := by simp [List.filter, he, beq_iff_eq, hk]
        rw [this, List.getLast?_concat]
        rfl
      · rw [if_neg (fun h => hk h.symm)]
        have : List.filter (fun c => citationEligible c && ((citationKey c).getD "" == k)) [a] =
            [] := by simp [List.filter, he, beq_eq_false_iff_ne.mpr hk]
        rw [this, List.append_nil]
        exact ih k
    · rw [if_neg he]
      have : List.filter (fun c => citationEligible c && ((citationKey c).getD "" == k)) [a] =
          [] := by simp [List.filter, he]
      rw [this, List.append_nil]
      exact ih k

end ChatGPTMd
